import Mathlib

/-!
# tiny-stl `vector` and `vector_iterator` (include/vector.hpp)

A shallow embedding of `tinystl::vector_iterator<T>` and `tinystl::vector<T>`.

* Addresses are integers counted in elements of `T`; `0` is the null pointer.
* The free store is a flat list of cells.  `new T[n]` appends an allocation
  record followed by `n` element cells and returns the address of the first
  element, so that every array returned by `new` (also one of length zero) has
  an address of its own, different from null.  `delete[] p` releases the
  block whose allocation record precedes `p`; `delete[] nullptr` does nothing.
* An element cell holds `some v` (an object of value `v`) or `none` (an object
  of indeterminate value, as `new int[n]` leaves it).
* A member function that changes `*this` returns the pair
  (the object afterwards, the value returned).
* Objects that may alias (`*this` and `other` in the assignment operators) live
  in a `World`: a free store and the list of the `vector` objects of the program.
-/

namespace tinystl

/-! ## The free store -/

/-- One slot of the free store. -/
inductive Cell (T : Type) where
  /-- the allocation record that `new T[n]` writes in front of the array -/
  | header (n : Nat)
  /-- an array element; `none` is an indeterminate value -/
  | live (v : Option T)
  /-- storage released by `delete[]` -/
  | dead
  deriving DecidableEq, Repr

/-- The free store: cell `p` of the list is the storage at address `p`. -/
structure Heap (T : Type) where
  cells : List (Cell T)
  deriving DecidableEq, Repr

/-- How objects of the element type come into being: `T{}` (value-initialisation)
and `new T[n]` without initialiser (default-initialisation, which leaves an
indeterminate value for scalar types such as `int`). -/
structure Elem (T : Type) where
  value_init : T
  default_init : Option T

/-- The element type `int`. -/
def intElem : Elem Int := ⟨0, none⟩

variable {T : Type}

/-- The cell at address `p`, if the address lies inside the store. -/
def Heap.cellAt (h : Heap T) (p : Int) : Option (Cell T) :=
  if p < 0 then none else h.cells[p.toNat]?

/-- Reading through a `T*`: the value of the element at `p`; `none` when there is
no element there or its value is indeterminate. -/
def Heap.load (h : Heap T) (p : Int) : Option T :=
  match h.cellAt p with
  | some (Cell.live v) => v
  | _ => none

/-- Writing the element at `p` (no effect outside a live array). -/
def Heap.store (h : Heap T) (p : Int) (v : Option T) : Heap T :=
  match h.cellAt p with
  | some (Cell.live _) => ⟨h.cells.set p.toNat (Cell.live v)⟩
  | _ => h

/-- The expression `new T[n]`, every element initialised to `init`: the new store and the
address of the first element. Where the array is placed (here: past the end of the store) is a
choice of this model; C++ fixes only that the array is storage of its own, apart from every live
array. -/
def Heap.new_array (h : Heap T) (n : Nat) (init : Option T) : Heap T × Int :=
  (⟨h.cells ++ Cell.header n :: List.replicate n (Cell.live init)⟩, (h.cells.length : Int) + 1)

/-- Mark the `n` cells from index `lo` on as released. -/
def releaseCells : List (Cell T) → Nat → Nat → List (Cell T)
  | [], _, _ => []
  | c :: cs, 0, 0 => c :: cs
  | _ :: cs, 0, n + 1 => Cell.dead :: releaseCells cs 0 n
  | c :: cs, lo + 1, n => c :: releaseCells cs lo n

/-- The expression `delete[] p`. -/
def Heap.delete_array (h : Heap T) (p : Int) : Heap T :=
  if p = 0 then h
  else match h.cellAt (p - 1) with
    | some (Cell.header n) => ⟨releaseCells h.cells (p - 1).toNat (n + 1)⟩
    | _ => h

/-- The algorithm `std::uninitialized_copy(first, last, d)` over `T*`, for `first ≤ last`:
element by element, in order. -/
def uninitialized_copy_n (h : Heap T) (first : Int) : Nat → Int → Heap T
  | 0, _ => h
  | n + 1, d => uninitialized_copy_n (h.store d (h.load first)) (first + 1) n (d + 1)

/-- The call `std::uninitialized_copy(first, last, d)` with both ends given. -/
def uninitialized_copy (h : Heap T) (first last d : Int) : Heap T :=
  uninitialized_copy_n h first (last - first).toNat d

/-- The algorithm `std::uninitialized_copy(first, last, d)` for a source that is not in the
free store (an initializer list, an input-iterator range): `l` is the sequence of
values the source yields. -/
def uninitialized_copy_list (h : Heap T) : List T → Int → Heap T
  | [], _ => h
  | x :: xs, d => uninitialized_copy_list (h.store d (some x)) xs (d + 1)

/-- The algorithm `std::uninitialized_fill(first, last, value)` for `first ≤ last`, by count. -/
def uninitialized_fill_n (h : Heap T) (value : T) : Nat → Int → Heap T
  | 0, _ => h
  | n + 1, d => uninitialized_fill_n (h.store d (some value)) value n (d + 1)

/-- The call `std::uninitialized_fill(first, last, value)`. -/
def uninitialized_fill (h : Heap T) (first last : Int) (value : T) : Heap T :=
  uninitialized_fill_n h value (last - first).toNat first

/-- A cell without the value it holds. -/
def Cell.erase : Cell T → Cell Unit
  | Cell.header n => Cell.header n
  | Cell.live _ => Cell.live none
  | Cell.dead => Cell.dead

/-- What kind of storage address `p` is, whatever the element value there. -/
def Heap.kindAt (h : Heap T) (p : Int) : Option (Cell Unit) :=
  (h.cellAt p).map Cell.erase

/-- Address `p` is the first element of a live array of `n` elements obtained from `new T[n]`. -/
def Heap.Block (h : Heap T) (p : Int) (n : Nat) : Prop :=
  h.kindAt (p - 1) = some (Cell.header n) ∧
    ∀ k : Nat, k < n → h.kindAt (p + (k : Int)) = some (Cell.live none)

/-! ## `vector_iterator` -/

/-- The class `vector_iterator<T>`: the single member `T* m_ptr`. -/
structure vector_iterator where
  m_ptr : Int := 0
  deriving DecidableEq, Repr

namespace vector_iterator

/-- The dereference `operator*`, giving the referenced element (its address). -/
def deref (self : vector_iterator) : Int := self.m_ptr

/-- Pre-increment `operator++()`. -/
def pre_inc (self : vector_iterator) : vector_iterator × vector_iterator :=
  let self1 : vector_iterator := ⟨self.m_ptr + 1⟩
  (self1, self1)

/-- Post-increment `operator++(int)`. -/
def post_inc (self : vector_iterator) : vector_iterator × vector_iterator :=
  let it := self
  let self1 := (pre_inc self).1
  (self1, it)

/-- Pre-decrement `operator--()`. -/
def pre_dec (self : vector_iterator) : vector_iterator × vector_iterator :=
  let self1 : vector_iterator := ⟨self.m_ptr - 1⟩
  (self1, self1)

/-- Post-decrement `operator--(int)`. -/
def post_dec (self : vector_iterator) : vector_iterator × vector_iterator :=
  let it := self
  let self1 := (pre_dec self).1
  (self1, it)

/-- The function `std::next(p, n)` on a pointer: a new pointer, the argument is taken by value. -/
def std_next (p : Int) (n : Int) : Int := p + n

/-- The function `std::prev(p, n)` on a pointer. -/
def std_prev (p : Int) (n : Int) : Int := p - n

/-- Compound `operator+=(n)`: the body is `std::next(m_ptr, n); return *this;`, the
value of `std::next` is not stored. -/
def add_assign (self : vector_iterator) (n : Int) : vector_iterator × vector_iterator :=
  let _discarded := std_next self.m_ptr n
  (self, self)

/-- Member `operator+(n) const`: copy, `+=`, return the copy. -/
def add (self : vector_iterator) (n : Int) : vector_iterator :=
  let it := self
  let it1 := (add_assign it n).1
  it1

/-- Friend `operator+(n, it)`. -/
def add_left (n : Int) (it : vector_iterator) : vector_iterator :=
  add it n

/-- Compound `operator-=(n)`: the body is `std::prev(m_ptr, n); return *this;`. -/
def sub_assign (self : vector_iterator) (n : Int) : vector_iterator × vector_iterator :=
  let _discarded := std_prev self.m_ptr n
  (self, self)

/-- Member `operator-(n) const`. -/
def sub (self : vector_iterator) (n : Int) : vector_iterator :=
  let it := self
  let it1 := (sub_assign it n).1
  it1

/-- Friend `operator-(first, last)`: `vector_iterator{last.m_ptr - first.m_ptr}`, the
pointer difference taken as the address of the iterator returned. -/
def diff (first last : vector_iterator) : vector_iterator :=
  ⟨last.m_ptr - first.m_ptr⟩

/-- Member `operator[](n)`: the element `*(m_ptr + n)` (its address). -/
def index (self : vector_iterator) (n : Int) : Int := self.m_ptr + n

/-- The defaulted comparison: `==` on the member `m_ptr`. -/
def eq (a b : vector_iterator) : Bool := decide (a.m_ptr = b.m_ptr)

/-- The defaulted comparison: `<` on the member `m_ptr`. -/
def lt (a b : vector_iterator) : Bool := decide (a.m_ptr < b.m_ptr)

/-- The comparison `a > b` that the defaulted `operator<=>` provides: `>` on the member `m_ptr`. -/
def gt (a b : vector_iterator) : Bool := decide (a.m_ptr > b.m_ptr)

end vector_iterator

/-! ## `vector` -/

/-- The class `vector<T>`: `T* m_data{}`, `std::size_t m_size{}`, `std::size_t m_capacity{}`. -/
structure vector where
  m_data : Int := 0
  m_size : Nat := 0
  m_capacity : Nat := 0
  deriving DecidableEq, Repr

namespace vector

/-- The default constructor `vector() = default`. -/
def ctor_default : vector := {}

/-- The constructor `vector(std::size_t size)`, with `new T[size]{}`. -/
def ctor_size (E : Elem T) (h : Heap T) (size : Nat) : Heap T × vector :=
  let (h1, p) := h.new_array size (some E.value_init)
  (h1, ⟨p, size, size⟩)

/-- The constructor `vector(std::size_t size, const T& value)`. -/
def ctor_fill (E : Elem T) (h : Heap T) (size : Nat) (value : T) : Heap T × vector :=
  let (h1, p) := h.new_array size E.default_init
  let self : vector := ⟨p, size, size⟩
  (uninitialized_fill h1 self.m_data (self.m_data + size) value, self)

/-- The constructor `vector(InputIter first, InputIter last)`; `src` is the sequence of values
of the range, `std::distance(first, last)` its length. -/
def ctor_range (E : Elem T) (h : Heap T) (src : List T) : Heap T × vector :=
  let (h1, p) := h.new_array src.length E.default_init
  let m_size := src.length
  let self : vector := ⟨p, m_size, m_size⟩
  (uninitialized_copy_list h1 src self.m_data, self)

/-- The constructor `vector(const vector& other)`. -/
def ctor_copy (E : Elem T) (h : Heap T) (other : vector) : Heap T × vector :=
  let (h1, p) := h.new_array other.m_size E.default_init
  let self : vector := ⟨p, other.m_size, other.m_capacity⟩
  (uninitialized_copy h1 other.m_data (other.m_data + other.m_size) self.m_data, self)

/-- The constructor `vector(vector&& other)`: the pair (the new object, `other` afterwards). -/
def ctor_move (other : vector) : vector × vector :=
  let self : vector := ⟨other.m_data, other.m_size, other.m_capacity⟩
  let other1 := { other with m_data := 0 }
  let other2 := { other1 with m_size := 0 }
  let other3 := { other2 with m_capacity := 0 }
  (self, other3)

/-- The constructor `vector(std::initializer_list<T> init_list)`. -/
def ctor_init_list (E : Elem T) (h : Heap T) (init_list : List T) : Heap T × vector :=
  let (h1, p) := h.new_array init_list.length E.default_init
  let self : vector := ⟨p, init_list.length, init_list.length⟩
  (uninitialized_copy_list h1 init_list self.m_data, self)

/-- The destructor `~vector()`. -/
def dtor (h : Heap T) (self : vector) : Heap T :=
  h.delete_array self.m_data

/-- The accessor `begin()`. -/
def begin (self : vector) : vector_iterator := ⟨self.m_data⟩

/-- The accessor `end()`. -/
def end_ (self : vector) : vector_iterator := ⟨self.m_data + self.m_size⟩

/-- The elements at indices `0 .. m_size - 1`, read through `m_data`. -/
def elems (h : Heap T) (self : vector) : List (Option T) :=
  (List.range self.m_size).map (fun i : Nat => h.load (self.m_data + (i : Int)))

end vector

/-- The loop `for (it = first; it != last; ++it) visit(*it)`, run for at most `fuel` tests of
the loop condition: the values visited in order, `none` when the fuel runs out
before `it == last`. -/
def traverse (h : Heap T) : Nat → vector_iterator → vector_iterator → Option (List (Option T))
  | 0, _, _ => none
  | fuel + 1, it, last =>
    if vector_iterator.eq it last then some []
    else match traverse h fuel (vector_iterator.pre_inc it).1 last with
      | none => none
      | some r => some (h.load (vector_iterator.deref it) :: r)

/-- The begin-to-end traversal of a container: `for (it = v.begin(); it != v.end(); ++it)`. -/
def vector.traversal (h : Heap T) (v : vector) (fuel : Nat) : Option (List (Option T)) :=
  traverse h fuel v.begin v.end_

/-! ## Programs over several `vector` objects -/

/-- The state of a program: the free store and its `vector` objects, named by position. -/
structure World (T : Type) where
  heap : Heap T
  vars : List vector
  deriving DecidableEq, Repr

namespace World

/-- The state before anything is constructed. -/
def empty : World T := ⟨⟨[]⟩, []⟩

/-- The object named `i`. -/
def var (w : World T) (i : Nat) : vector := w.vars.getD i {}

/-- Overwrite the object named `i`. -/
def setVar (w : World T) (i : Nat) (v : vector) : World T := ⟨w.heap, w.vars.set i v⟩

/-- Declare a new object `vector<T> v;`. -/
def construct_default (w : World T) : World T :=
  ⟨w.heap, w.vars ++ [vector.ctor_default]⟩

/-- Declare a new object `vector<T> v(size);`. -/
def construct_size (E : Elem T) (w : World T) (size : Nat) : World T :=
  let r := vector.ctor_size E w.heap size
  ⟨r.1, w.vars ++ [r.2]⟩

/-- Declare a new object `vector<T> v(size, value);`. -/
def construct_fill (E : Elem T) (w : World T) (size : Nat) (value : T) : World T :=
  let r := vector.ctor_fill E w.heap size value
  ⟨r.1, w.vars ++ [r.2]⟩

/-- Declare a new object `vector<T> v(first, last);` (or from a range). -/
def construct_range (E : Elem T) (w : World T) (src : List T) : World T :=
  let r := vector.ctor_range E w.heap src
  ⟨r.1, w.vars ++ [r.2]⟩

/-- Declare a new object `vector<T> v(other);`. -/
def construct_copy (E : Elem T) (w : World T) (other : Nat) : World T :=
  let r := vector.ctor_copy E w.heap (w.var other)
  ⟨r.1, w.vars ++ [r.2]⟩

/-- Declare a new object `vector<T> v(std::move(other));`. -/
def construct_move (w : World T) (other : Nat) : World T :=
  let r := vector.ctor_move (w.var other)
  ⟨w.heap, w.vars.set other r.2 ++ [r.1]⟩

/-- Declare a new object `vector<T> v{init_list};`. -/
def construct_init_list (E : Elem T) (w : World T) (init_list : List T) : World T :=
  let r := vector.ctor_init_list E w.heap init_list
  ⟨r.1, w.vars ++ [r.2]⟩

/-- The free store becomes `h`. -/
def set_heap (w : World T) (h : Heap T) : World T := ⟨h, w.vars⟩

/-- The statement `m_data = p;` run on the object named `i`. -/
def set_data (w : World T) (i : Nat) (p : Int) : World T :=
  w.setVar i { w.var i with m_data := p }

/-- The statement `m_size = n;` run on the object named `i`. -/
def set_size (w : World T) (i : Nat) (n : Nat) : World T :=
  w.setVar i { w.var i with m_size := n }

/-- The statement `m_capacity = n;` run on the object named `i`. -/
def set_capacity (w : World T) (i : Nat) (n : Nat) : World T :=
  w.setVar i { w.var i with m_capacity := n }

/-- The copy assignment `vector::operator=(const vector& other)`, run on the object named `this`
with the object named `other` as argument (the two names may be the same). -/
def assign_copy (E : Elem T) (w : World T) (this other : Nat) : World T :=
  -- delete[] m_data;
  let w1 := w.set_heap (w.heap.delete_array (w.var this).m_data)
  -- m_data = new T[other.m_size];
  let a := w1.heap.new_array (w1.var other).m_size E.default_init
  let w2 := (w1.set_heap a.1).set_data this a.2
  -- m_size = other.m_size;
  let w3 := w2.set_size this (w2.var other).m_size
  -- m_capacity = other.m_capacity;
  let w4 := w3.set_capacity this (w3.var other).m_capacity
  -- std::uninitialized_copy(other.m_data, other.m_data + other.m_size, m_data);
  w4.set_heap (uninitialized_copy w4.heap (w4.var other).m_data
      ((w4.var other).m_data + (w4.var other).m_size) (w4.var this).m_data)

/-- The move assignment `vector::operator=(vector&& other)`. -/
def assign_move (w : World T) (this other : Nat) : World T :=
  -- delete[] m_data;
  let w1 := w.set_heap (w.heap.delete_array (w.var this).m_data)
  -- m_data = other.m_data;
  let w2 := w1.set_data this (w1.var other).m_data
  -- m_size = other.m_size;
  let w3 := w2.set_size this (w2.var other).m_size
  -- m_capacity = other.m_capacity;
  let w4 := w3.set_capacity this (w3.var other).m_capacity
  -- other.m_data = nullptr;
  let w5 := w4.set_data other 0
  -- other.m_size = 0;
  let w6 := w5.set_size other 0
  -- other.m_capacity = 0;
  let w7 := w6.set_capacity other 0
  w7

/-- The assignment `vector::operator=(std::initializer_list<T> init_list)`. -/
def assign_init_list (E : Elem T) (w : World T) (this : Nat) (init_list : List T) : World T :=
  -- delete[] m_data;
  let w1 := w.set_heap (w.heap.delete_array (w.var this).m_data)
  -- m_data = new T[init_list.size()];
  let a := w1.heap.new_array init_list.length E.default_init
  let w2 := (w1.set_heap a.1).set_data this a.2
  -- m_size = init_list.size();
  let w3 := w2.set_size this init_list.length
  -- m_capacity = init_list.size();
  let w4 := w3.set_capacity this init_list.length
  -- std::uninitialized_copy(init_list.begin(), init_list.end(), m_data);
  w4.set_heap (uninitialized_copy_list w4.heap init_list (w4.var this).m_data)

end World

/-- One statement of a program that uses the public interface of `vector`. -/
inductive Op (T : Type) where
  | ctor_default
  | ctor_size (size : Nat)
  | ctor_fill (size : Nat) (value : T)
  | ctor_range (src : List T)
  | ctor_copy (other : Nat)
  | ctor_move (other : Nat)
  | ctor_init_list (init_list : List T)
  | assign_copy (this other : Nat)
  | assign_move (this other : Nat)
  | assign_init_list (this : Nat) (init_list : List T)
  deriving DecidableEq, Repr

/-- Run one statement; a statement naming an object that does not exist is skipped. -/
def World.step (E : Elem T) (w : World T) : Op T → World T
  | Op.ctor_default => w.construct_default
  | Op.ctor_size size => w.construct_size E size
  | Op.ctor_fill size value => w.construct_fill E size value
  | Op.ctor_range src => w.construct_range E src
  | Op.ctor_copy other => if other < w.vars.length then w.construct_copy E other else w
  | Op.ctor_move other => if other < w.vars.length then w.construct_move other else w
  | Op.ctor_init_list l => w.construct_init_list E l
  | Op.assign_copy this other =>
    if this < w.vars.length ∧ other < w.vars.length then w.assign_copy E this other else w
  | Op.assign_move this other =>
    if this < w.vars.length ∧ other < w.vars.length then w.assign_move this other else w
  | Op.assign_init_list this l =>
    if this < w.vars.length then w.assign_init_list E this l else w

/-- Run a program from the empty state. -/
def World.run (E : Elem T) (ops : List (Op T)) : World T :=
  ops.foldl (World.step E) World.empty

/-- The states a program over the public interface can be in. -/
def Reachable (E : Elem T) (w : World T) : Prop :=
  ∃ ops : List (Op T), World.run E ops = w

/-- The object owns its buffer: no spare capacity is recorded, and `m_data` is null with no
elements or the start of a live array of `m_size` elements. -/
def vector.Owned (h : Heap T) (v : vector) : Prop :=
  v.m_capacity = v.m_size ∧ ((v.m_data = 0 ∧ v.m_size = 0) ∨ h.Block v.m_data v.m_size)

/-- The representation invariant of a program state: every object owns its buffer and no two
objects hold the same non-null buffer. -/
structure World.WF (w : World T) : Prop where
  owned : ∀ i, i < w.vars.length → (w.var i).Owned w.heap
  distinct : ∀ i j, i < w.vars.length → j < w.vars.length → i ≠ j →
    (w.var i).m_data ≠ 0 → (w.var i).m_data ≠ (w.var j).m_data

/-! ## Facts about the free store -/

section HeapLemmas

variable {T : Type}

theorem Heap.cellAt_neg (h : Heap T) {p : Int} (hp : p < 0) : h.cellAt p = none := by
  simp [Heap.cellAt, hp]

theorem Heap.cellAt_nonneg (h : Heap T) {p : Int} (hp : 0 ≤ p) :
    h.cellAt p = h.cells[p.toNat]? := by
  simp [Heap.cellAt, not_lt.mpr hp]

theorem Heap.cellAt_some_bounds {h : Heap T} {p : Int} {c : Cell T}
    (hc : h.cellAt p = some c) : 0 ≤ p ∧ p < (h.cells.length : Int) := by
  by_cases hp : p < 0
  · rw [h.cellAt_neg hp] at hc; cases hc
  · have hp0 : 0 ≤ p := not_lt.mp hp
    rw [h.cellAt_nonneg hp0] at hc
    have := (List.getElem?_eq_some_iff.mp hc).1
    omega

theorem Heap.cellAt_beyond (h : Heap T) {p : Int} (hp : (h.cells.length : Int) ≤ p) :
    h.cellAt p = none := by
  cases hc : h.cellAt p with
  | none => rfl
  | some c => have := Heap.cellAt_some_bounds hc; omega

theorem Heap.store_of_live (h : Heap T) {p : Int} {u : Option T} (v : Option T)
    (hc : h.cellAt p = some (Cell.live u)) :
    h.store p v = ⟨h.cells.set p.toNat (Cell.live v)⟩ := by
  simp [Heap.store, hc]

theorem Heap.store_of_not_live (h : Heap T) {p : Int} (v : Option T)
    (hc : ∀ u, h.cellAt p ≠ some (Cell.live u)) : h.store p v = h := by
  unfold Heap.store
  split
  · rename_i u hu; exact absurd hu (hc u)
  · rfl

theorem Heap.cellAt_store_ne (h : Heap T) {p q : Int} (v : Option T) (hq : q ≠ p) :
    (h.store p v).cellAt q = h.cellAt q := by
  by_cases hl : ∃ u, h.cellAt p = some (Cell.live u)
  · obtain ⟨u, hu⟩ := hl
    have hb := Heap.cellAt_some_bounds hu
    rw [h.store_of_live v hu]
    by_cases hq0 : q < 0
    · simp [Heap.cellAt, hq0]
    · simp only [Heap.cellAt, hq0, if_false]
      rw [List.getElem?_set_ne]
      omega
  · rw [h.store_of_not_live v (fun u hu => hl ⟨u, hu⟩)]

theorem Heap.cellAt_store_live (h : Heap T) {p : Int} {u : Option T} (v : Option T)
    (hc : h.cellAt p = some (Cell.live u)) :
    (h.store p v).cellAt p = some (Cell.live v) := by
  have hb := Heap.cellAt_some_bounds hc
  rw [h.store_of_live v hc, Heap.cellAt_nonneg _ hb.1]
  simp only
  rw [List.getElem?_set_self]
  omega

theorem Heap.store_load_self (h : Heap T) (p : Int) : h.store p (h.load p) = h := by
  by_cases hl : ∃ u, h.cellAt p = some (Cell.live u)
  · obtain ⟨u, hu⟩ := hl
    have hb := Heap.cellAt_some_bounds hu
    rw [h.store_of_live _ hu]
    have hload : h.load p = u := by simp [Heap.load, hu]
    rw [hload]
    rw [Heap.cellAt_nonneg _ hb.1] at hu
    cases h with
    | mk cells =>
      simp only at hu ⊢
      congr 1
      apply List.ext_getElem?
      intro i
      by_cases hi : p.toNat = i
      · subst hi
        rw [List.getElem?_set_self (List.getElem?_eq_some_iff.mp hu).1, hu]
      · rw [List.getElem?_set_ne hi]
  · exact h.store_of_not_live _ (fun u hu => hl ⟨u, hu⟩)

theorem Heap.store_length (h : Heap T) (p : Int) (v : Option T) :
    (h.store p v).cells.length = h.cells.length := by
  unfold Heap.store
  split <;> simp

theorem Heap.new_array_length (h : Heap T) (n : Nat) (init : Option T) :
    (h.new_array n init).1.cells.length = h.cells.length + 1 + n := by
  simp [Heap.new_array]
  omega

theorem Heap.new_array_addr (h : Heap T) (n : Nat) (init : Option T) :
    (h.new_array n init).2 = (h.cells.length : Int) + 1 := rfl

theorem Heap.cellAt_new_array_old (h : Heap T) (n : Nat) (init : Option T) {q : Int}
    (hq : q < (h.cells.length : Int)) : (h.new_array n init).1.cellAt q = h.cellAt q := by
  by_cases hq0 : q < 0
  · simp [Heap.cellAt, hq0]
  · simp only [Heap.cellAt, hq0, if_false, Heap.new_array]
    rw [List.getElem?_append_left (by omega)]

theorem Heap.cellAt_new_array_header (h : Heap T) (n : Nat) (init : Option T) :
    (h.new_array n init).1.cellAt (h.cells.length : Int) = some (Cell.header n) := by
  rw [Heap.cellAt_nonneg _ (by omega)]
  simp only [Heap.new_array, Int.toNat_ofNat]
  rw [List.getElem?_append_right (le_refl _)]
  simp

theorem Heap.cellAt_new_array_elem (h : Heap T) (n : Nat) (init : Option T) {k : Nat}
    (hk : k < n) :
    (h.new_array n init).1.cellAt ((h.cells.length : Int) + 1 + (k : Int))
      = some (Cell.live init) := by
  rw [Heap.cellAt_nonneg _ (by omega)]
  have e : ((h.cells.length : Int) + 1 + (k : Int)).toNat = h.cells.length + (k + 1) := by omega
  rw [e]
  simp only [Heap.new_array]
  rw [List.getElem?_append_right (by omega)]
  simp [hk]

theorem releaseCells_length (cs : List (Cell T)) (lo n : Nat) :
    (releaseCells cs lo n).length = cs.length := by
  induction cs generalizing lo n with
  | nil => simp [releaseCells]
  | cons c cs ih =>
    cases lo with
    | zero => cases n <;> simp [releaseCells, ih]
    | succ lo => simp [releaseCells, ih]

theorem releaseCells_getElem? (cs : List (Cell T)) (lo n i : Nat) :
    (releaseCells cs lo n)[i]? =
      if lo ≤ i ∧ i < lo + n then (cs[i]?).map (fun _ => Cell.dead) else cs[i]? := by
  induction cs generalizing lo n i with
  | nil => simp [releaseCells]
  | cons c cs ih =>
    cases lo with
    | zero =>
      cases n with
      | zero => simp [releaseCells]
      | succ n =>
        cases i with
        | zero => simp [releaseCells]
        | succ i =>
          simp only [releaseCells, List.getElem?_cons_succ, ih]
          simp
    | succ lo =>
      cases i with
      | zero => simp [releaseCells]
      | succ i =>
        simp only [releaseCells, List.getElem?_cons_succ, ih]
        have e : (lo + 1 ≤ i + 1 ∧ i + 1 < lo + 1 + n) ↔ (lo ≤ i ∧ i < lo + n) := by omega
        simp only [e]

theorem Heap.delete_array_null (h : Heap T) : h.delete_array 0 = h := by
  simp [Heap.delete_array]

theorem Heap.delete_array_length (h : Heap T) (p : Int) :
    (h.delete_array p).cells.length = h.cells.length := by
  unfold Heap.delete_array
  split
  · rfl
  · split
    · simp [releaseCells_length]
    · rfl

theorem Heap.cellAt_delete_array (h : Heap T) {p : Int} {n : Nat} (hp : p ≠ 0)
    (hh : h.cellAt (p - 1) = some (Cell.header n)) (q : Int) :
    (h.delete_array p).cellAt q =
      if p - 1 ≤ q ∧ q < p + (n : Int) then (h.cellAt q).map (fun _ => Cell.dead)
      else h.cellAt q := by
  have hb := Heap.cellAt_some_bounds hh
  simp only [Heap.delete_array, hp, if_false, hh]
  by_cases hq0 : q < 0
  · have : ¬ (p - 1 ≤ q ∧ q < p + (n : Int)) := by omega
    simp [Heap.cellAt, hq0, this]
  · simp only [Heap.cellAt, hq0, if_false, releaseCells_getElem?]
    have e : ((p - 1).toNat ≤ q.toNat ∧ q.toNat < (p - 1).toNat + (n + 1))
        ↔ (p - 1 ≤ q ∧ q < p + (n : Int)) := by omega
    simp only [e]

theorem Heap.cellAt_delete_array_frame (h : Heap T) {p : Int} {n : Nat}
    (hh : h.cellAt (p - 1) = some (Cell.header n)) {q : Int}
    (hq : q < p - 1 ∨ p + (n : Int) ≤ q) :
    (h.delete_array p).cellAt q = h.cellAt q := by
  by_cases hp : p = 0
  · subst hp; rw [Heap.delete_array_null]
  · rw [h.cellAt_delete_array hp hh]
    have : ¬ (p - 1 ≤ q ∧ q < p + (n : Int)) := by omega
    rw [if_neg this]

theorem Heap.kindAt_store (h : Heap T) (p : Int) (v : Option T) (q : Int) :
    (h.store p v).kindAt q = h.kindAt q := by
  unfold Heap.kindAt
  by_cases hq : q = p
  · subst hq
    by_cases hl : ∃ u, h.cellAt q = some (Cell.live u)
    · obtain ⟨u, hu⟩ := hl
      rw [h.cellAt_store_live v hu, hu]
      rfl
    · rw [h.store_of_not_live v (fun u hu => hl ⟨u, hu⟩)]
  · rw [h.cellAt_store_ne v hq]

theorem Heap.kindAt_live_iff (h : Heap T) (p : Int) :
    h.kindAt p = some (Cell.live none) ↔ ∃ u, h.cellAt p = some (Cell.live u) := by
  unfold Heap.kindAt
  cases hc : h.cellAt p with
  | none => simp
  | some c => cases c <;> simp [Cell.erase]

theorem Heap.kindAt_header_iff (h : Heap T) (p : Int) (n : Nat) :
    h.kindAt p = some (Cell.header n) ↔ h.cellAt p = some (Cell.header n) := by
  unfold Heap.kindAt
  cases hc : h.cellAt p with
  | none => simp
  | some c => cases c <;> simp [Cell.erase]

theorem Heap.kindAt_some_bounds {h : Heap T} {p : Int} {c : Cell Unit}
    (hc : h.kindAt p = some c) : 0 ≤ p ∧ p < (h.cells.length : Int) := by
  unfold Heap.kindAt at hc
  cases hx : h.cellAt p with
  | none => rw [hx] at hc; cases hc
  | some x => exact Heap.cellAt_some_bounds hx

/-! ### The bulk algorithms -/

theorem uninitialized_fill_n_eq_copy_list (h : Heap T) (value : T) (n : Nat) (d : Int) :
    uninitialized_fill_n h value n d = uninitialized_copy_list h (List.replicate n value) d := by
  induction n generalizing h d with
  | zero => rfl
  | succ n ih => simp [uninitialized_fill_n, uninitialized_copy_list, List.replicate_succ, ih]

theorem kindAt_uninitialized_copy_list (h : Heap T) (l : List T) (d q : Int) :
    (uninitialized_copy_list h l d).kindAt q = h.kindAt q := by
  induction l generalizing h d with
  | nil => rfl
  | cons x xs ih => simp [uninitialized_copy_list, ih, Heap.kindAt_store]

theorem length_uninitialized_copy_list (h : Heap T) (l : List T) (d : Int) :
    (uninitialized_copy_list h l d).cells.length = h.cells.length := by
  induction l generalizing h d with
  | nil => rfl
  | cons x xs ih => simp [uninitialized_copy_list, ih, Heap.store_length]

theorem cellAt_uninitialized_copy_list_frame (h : Heap T) (l : List T) (d : Int) {q : Int}
    (hq : q < d ∨ d + (l.length : Int) ≤ q) :
    (uninitialized_copy_list h l d).cellAt q = h.cellAt q := by
  induction l generalizing h d with
  | nil => rfl
  | cons x xs ih =>
    simp only [uninitialized_copy_list, List.length_cons, Nat.cast_add, Nat.cast_one] at hq ⊢
    rw [ih _ _ (by omega), Heap.cellAt_store_ne _ _ (by omega)]

theorem cellAt_uninitialized_copy_list (h : Heap T) (l : List T) (d : Int)
    (hl : ∀ k : Nat, k < l.length → h.kindAt (d + (k : Int)) = some (Cell.live none))
    (k : Nat) (hk : k < l.length) :
    (uninitialized_copy_list h l d).cellAt (d + (k : Int)) = some (Cell.live (some l[k])) := by
  induction l generalizing h d k with
  | nil => simp at hk
  | cons x xs ih =>
    simp only [uninitialized_copy_list]
    cases k with
    | zero =>
      have h0 := hl 0 (by simp)
      simp only [Nat.cast_zero, add_zero] at h0 ⊢
      rw [cellAt_uninitialized_copy_list_frame _ _ _ (by omega)]
      obtain ⟨u, hu⟩ := (h.kindAt_live_iff d).mp h0
      rw [h.cellAt_store_live _ hu]
      rfl
    | succ k =>
      have hk1 : k < xs.length := by simpa using hk
      have := ih (h.store d (some x)) (d + 1) (fun j hj => by
        rw [Heap.kindAt_store]
        have := hl (j + 1) (by simpa using hj)
        rw [← this]; congr 1; push_cast; ring) k hk1
      simp only [List.getElem_cons_succ]
      rw [← this]; congr 1; push_cast; ring

theorem kindAt_uninitialized_copy_n (h : Heap T) (first : Int) (n : Nat) (d q : Int) :
    (uninitialized_copy_n h first n d).kindAt q = h.kindAt q := by
  induction n generalizing h first d with
  | zero => rfl
  | succ n ih => simp [uninitialized_copy_n, ih, Heap.kindAt_store]

theorem length_uninitialized_copy_n (h : Heap T) (first : Int) (n : Nat) (d : Int) :
    (uninitialized_copy_n h first n d).cells.length = h.cells.length := by
  induction n generalizing h first d with
  | zero => rfl
  | succ n ih => simp [uninitialized_copy_n, ih, Heap.store_length]

theorem cellAt_uninitialized_copy_n_frame (h : Heap T) (first : Int) (n : Nat) (d : Int)
    {q : Int} (hq : q < d ∨ d + (n : Int) ≤ q) :
    (uninitialized_copy_n h first n d).cellAt q = h.cellAt q := by
  induction n generalizing h first d with
  | zero => rfl
  | succ n ih =>
    simp only [uninitialized_copy_n, Nat.cast_add, Nat.cast_one] at hq ⊢
    rw [ih _ _ _ (by omega), Heap.cellAt_store_ne _ _ (by omega)]

theorem uninitialized_copy_n_self (h : Heap T) (n : Nat) (d : Int) :
    uninitialized_copy_n h d n d = h := by
  induction n generalizing h d with
  | zero => rfl
  | succ n ih => simp [uninitialized_copy_n, Heap.store_load_self, ih]

theorem Heap.load_congr {h h' : Heap T} {p p' : Int} (e : h'.cellAt p' = h.cellAt p) :
    h'.load p' = h.load p := by
  simp [Heap.load, e]

theorem cellAt_uninitialized_copy_n (h : Heap T) (first : Int) (n : Nat) (d : Int)
    (hsep : first + (n : Int) ≤ d ∨ d + (n : Int) ≤ first)
    (hl : ∀ k : Nat, k < n → h.kindAt (d + (k : Int)) = some (Cell.live none))
    (k : Nat) (hk : k < n) :
    (uninitialized_copy_n h first n d).cellAt (d + (k : Int))
      = some (Cell.live (h.load (first + (k : Int)))) := by
  induction n generalizing h first d k with
  | zero => omega
  | succ n ih =>
    simp only [uninitialized_copy_n]
    simp only [Nat.cast_add, Nat.cast_one] at hsep
    cases k with
    | zero =>
      have h0 := hl 0 (by omega)
      simp only [Nat.cast_zero, add_zero] at h0 ⊢
      rw [cellAt_uninitialized_copy_n_frame _ _ _ _ (by omega)]
      obtain ⟨u, hu⟩ := (h.kindAt_live_iff d).mp h0
      rw [h.cellAt_store_live _ hu]
    | succ k =>
      have hk1 : k < n := by omega
      have := ih (h.store d (h.load first)) (first + 1) (d + 1) (by omega) (fun j hj => by
        rw [Heap.kindAt_store]
        have := hl (j + 1) (by omega)
        rw [← this]; congr 1; push_cast; ring) k hk1
      have e1 : d + ((k + 1 : Nat) : Int) = d + 1 + (k : Int) := by push_cast; ring
      have e2 : first + ((k + 1 : Nat) : Int) = first + 1 + (k : Int) := by push_cast; ring
      rw [e1, e2, this]
      congr 2
      exact Heap.load_congr (Heap.cellAt_store_ne _ _ (by omega))

/-! ### Traversal -/

theorem traverse_range (h : Heap T) (n : Nat) (p : Int) (fuel : Nat) :
    traverse h fuel ⟨p⟩ ⟨p + (n : Int)⟩ =
      if n < fuel then some ((List.range n).map (fun i : Nat => h.load (p + (i : Int))))
      else none := by
  induction n generalizing p fuel with
  | zero =>
    cases fuel with
    | zero => rfl
    | succ fuel => simp [traverse, vector_iterator.eq]
  | succ n ih =>
    cases fuel with
    | zero => rfl
    | succ fuel =>
      have hne : vector_iterator.eq ⟨p⟩ ⟨p + ((n + 1 : Nat) : Int)⟩ = false := by
        simp only [vector_iterator.eq, decide_eq_false_iff_not]
        push_cast
        omega
      have e : p + ((n + 1 : Nat) : Int) = p + 1 + (n : Int) := by push_cast; ring
      simp only [traverse, hne, vector_iterator.pre_inc, vector_iterator.deref]
      rw [e, ih (p + 1) fuel]
      by_cases hf : n < fuel
      · have hf1 : n + 1 < fuel + 1 := by omega
        simp only [hf, hf1, if_true, Bool.false_eq_true, if_false]
        rw [List.range_succ_eq_map, List.map_cons, List.map_map]
        simp only [Nat.cast_zero, add_zero, Option.some.injEq, List.cons.injEq, true_and]
        apply List.map_congr_left
        intro i _
        simp only [Function.comp, Nat.succ_eq_add_one]
        congr 1
        push_cast
        ring
      · have hf1 : ¬ (n + 1 < fuel + 1) := by omega
        simp [hf, hf1]

theorem vector.traverse_eq (h : Heap T) (v : vector) (fuel : Nat) :
    traverse h fuel v.begin v.end_ = if v.m_size < fuel then some (v.elems h) else none := by
  simp only [vector.begin, vector.end_, vector.elems]
  exact traverse_range h v.m_size v.m_data fuel

theorem range_map_getElem? (l : List T) :
    (List.range l.length).map (fun i : Nat => l[i]?) = l.map some := by
  apply List.ext_getElem?
  intro i
  by_cases hi : i < l.length
  · simp [List.getElem?_range, hi, List.getElem?_eq_getElem]
  · simp [List.getElem?_eq_none, not_lt.mp hi]

theorem vector.elems_eq_of_load (h : Heap T) (v : vector) (l : List (Option T))
    (hlen : l.length = v.m_size)
    (hl : ∀ k : Nat, k < v.m_size → h.load (v.m_data + (k : Int)) = l.getD k none) :
    v.elems h = l := by
  apply List.ext_getElem?
  intro i
  simp only [vector.elems]
  by_cases hi : i < v.m_size
  · rw [List.getElem?_map, List.getElem?_range hi]
    simp only [Option.map_some']
    rw [hl i hi, List.getD_eq_getElem?_getD, List.getElem?_eq_getElem (by omega)]
    simp
  · rw [List.getElem?_eq_none (by simp; omega), List.getElem?_eq_none (by omega)]

theorem Heap.load_of_cellAt {h : Heap T} {p : Int} {u : Option T}
    (hc : h.cellAt p = some (Cell.live u)) : h.load p = u := by
  simp [Heap.load, hc]

/-! ### Blocks -/

theorem Heap.block_new_array (h : Heap T) (n : Nat) (init : Option T) :
    (h.new_array n init).1.Block (h.new_array n init).2 n := by
  constructor
  · rw [Heap.kindAt_header_iff, Heap.new_array_addr]
    have e : (h.cells.length : Int) + 1 - 1 = (h.cells.length : Int) := by omega
    rw [e]
    exact h.cellAt_new_array_header n init
  · intro k hk
    rw [Heap.kindAt_live_iff, Heap.new_array_addr]
    exact ⟨init, h.cellAt_new_array_elem n init hk⟩

theorem Heap.block_new_array_at (h : Heap T) (n : Nat) (init : Option T) :
    (h.new_array n init).1.Block ((h.cells.length : Int) + 1) n :=
  h.block_new_array n init

theorem Heap.Block.of_kindAt {h h' : Heap T} {p : Int} {n : Nat} (hb : h.Block p n)
    (hk : ∀ q c, h.kindAt q = some c → h'.kindAt q = some c) : h'.Block p n :=
  ⟨hk _ _ hb.1, fun k hkn => hk _ _ (hb.2 k hkn)⟩

theorem Heap.Block.pos {h : Heap T} {p : Int} {n : Nat} (hb : h.Block p n) : 1 ≤ p := by
  have := (Heap.kindAt_some_bounds hb.1).1
  omega

theorem Heap.Block.le_length {h : Heap T} {p : Int} {n : Nat} (hb : h.Block p n) :
    p + (n : Int) ≤ (h.cells.length : Int) := by
  cases n with
  | zero =>
    have := (Heap.kindAt_some_bounds hb.1).2
    simp only [Nat.cast_zero, add_zero]
    omega
  | succ n =>
    have := (Heap.kindAt_some_bounds (hb.2 n (by omega))).2
    push_cast
    omega

theorem Heap.Block.disjoint {h : Heap T} {p q : Int} {n m : Nat}
    (hp : h.Block p n) (hq : h.Block q m) (hne : p ≠ q) :
    p + (n : Int) < q ∨ q + (m : Int) < p := by
  rcases lt_or_gt_of_ne hne with hlt | hgt
  · left
    by_contra hcon
    have h1 := hp.pos
    have hk := hp.2 (q - 1 - p).toNat (by omega)
    have e : p + ((q - 1 - p).toNat : Int) = q - 1 := by omega
    rw [e, hq.1] at hk
    cases hk
  · right
    by_contra hcon
    have h1 := hq.pos
    have hk := hq.2 (p - 1 - q).toNat (by omega)
    have e : q + ((p - 1 - q).toNat : Int) = p - 1 := by omega
    rw [e, hp.1] at hk
    cases hk

/-! ### `new T[n]` followed by a copy from a list -/

theorem new_then_copy_list_block (h : Heap T) (l : List T) (init : Option T) :
    (uninitialized_copy_list (h.new_array l.length init).1 l (h.new_array l.length init).2).Block
      ((h.cells.length : Int) + 1) l.length :=
  (h.block_new_array l.length init).of_kindAt
    (fun q c hq => by rw [kindAt_uninitialized_copy_list]; exact hq)

theorem new_then_copy_list_load (h : Heap T) (l : List T) (init : Option T)
    (k : Nat) (hk : k < l.length) :
    (uninitialized_copy_list (h.new_array l.length init).1 l (h.new_array l.length init).2).load
      ((h.cells.length : Int) + 1 + (k : Int)) = some l[k] :=
  Heap.load_of_cellAt
    (cellAt_uninitialized_copy_list _ l _ (h.block_new_array l.length init).2 k hk)

theorem new_then_copy_list_old (h : Heap T) (l : List T) (init : Option T) {q : Int}
    (hq : q < (h.cells.length : Int)) :
    (uninitialized_copy_list (h.new_array l.length init).1 l (h.new_array l.length init).2).cellAt q
      = h.cellAt q := by
  rw [cellAt_uninitialized_copy_list_frame _ _ _ (by rw [Heap.new_array_addr]; omega)]
  exact h.cellAt_new_array_old _ _ hq

theorem vector.ctor_init_list_fields (E : Elem T) (h : Heap T) (l : List T) :
    (vector.ctor_init_list E h l).2 = ⟨(h.cells.length : Int) + 1, l.length, l.length⟩ := rfl

theorem vector.ctor_init_list_elems (E : Elem T) (h : Heap T) (l : List T) :
    (vector.ctor_init_list E h l).2.elems (vector.ctor_init_list E h l).1 = l.map some := by
  apply vector.elems_eq_of_load
  · simp [vector.ctor_init_list_fields]
  · intro k hk
    have hk1 : k < l.length := hk
    have := new_then_copy_list_load h l E.default_init k hk1
    simp only [vector.ctor_init_list_fields]
    simp only [vector.ctor_init_list, Heap.new_array_addr] at this ⊢
    rw [this]
    simp [List.getD_eq_getElem?_getD, hk1]

end HeapLemmas

/-! ## Facts about program states -/

section WorldLemmas

variable {T : Type}

theorem World.var_mk (h : Heap T) (vs : List vector) (i : Nat) :
    (World.mk h vs).var i = vs.getD i {} := rfl

theorem World.var_set_same (h : Heap T) (vs : List vector) {i : Nat} (v : vector)
    (hi : i < vs.length) : (World.mk h (vs.set i v)).var i = v := by
  simp [World.var, List.getD_eq_getElem?_getD, List.getElem?_set_self hi]

theorem World.var_set_ne (h h' : Heap T) (vs : List vector) {i j : Nat} (v : vector)
    (hij : i ≠ j) : (World.mk h (vs.set i v)).var j = (World.mk h' vs).var j := by
  simp [World.var, List.getD_eq_getElem?_getD, List.getElem?_set_ne hij]

theorem World.var_append_left (h h' : Heap T) (vs : List vector) (v : vector) {i : Nat}
    (hi : i < vs.length) : (World.mk h (vs ++ [v])).var i = (World.mk h' vs).var i := by
  simp [World.var, List.getD_eq_getElem?_getD, List.getElem?_append_left hi]

theorem World.var_append_right (h : Heap T) (vs : List vector) (v : vector) :
    (World.mk h (vs ++ [v])).var vs.length = v := by
  simp [World.var, List.getD_eq_getElem?_getD]

theorem World.var_heap_irrel (w : World T) (h : Heap T) (i : Nat) :
    (World.mk h w.vars).var i = w.var i := rfl

theorem World.set_heap_heap (w : World T) (h : Heap T) : (w.set_heap h).heap = h := rfl

theorem World.set_heap_vars (w : World T) (h : Heap T) : (w.set_heap h).vars = w.vars := rfl

theorem World.set_heap_var (w : World T) (h : Heap T) (i : Nat) :
    (w.set_heap h).var i = w.var i := rfl

theorem World.setVar_heap (w : World T) (i : Nat) (v : vector) : (w.setVar i v).heap = w.heap :=
  rfl

theorem World.setVar_length (w : World T) (i : Nat) (v : vector) :
    (w.setVar i v).vars.length = w.vars.length := by
  simp [World.setVar]

theorem World.setVar_var (w : World T) (i j : Nat) (v : vector) :
    (w.setVar i v).var j = if j = i ∧ i < w.vars.length then v else w.var j := by
  by_cases hji : j = i
  · subst hji
    by_cases hj : j < w.vars.length
    · simp [World.setVar, World.var, List.getD_eq_getElem?_getD, List.getElem?_set_self hj, hj]
    · have h1 : (w.vars.set j v)[j]? = none :=
        List.getElem?_eq_none (by rw [List.length_set]; exact not_lt.mp hj)
      simp [World.setVar, World.var, List.getD_eq_getElem?_getD, hj,
        List.getElem?_eq_none (not_lt.mp hj), h1]
  · have hij : i ≠ j := fun e => hji e.symm
    simp [World.setVar, World.var, List.getD_eq_getElem?_getD, List.getElem?_set_ne hij, hji]

theorem World.set_data_heap (w : World T) (i : Nat) (p : Int) : (w.set_data i p).heap = w.heap :=
  rfl

theorem World.set_size_heap (w : World T) (i n : Nat) : (w.set_size i n).heap = w.heap := rfl

theorem World.set_capacity_heap (w : World T) (i n : Nat) :
    (w.set_capacity i n).heap = w.heap := rfl

theorem World.set_data_length (w : World T) (i : Nat) (p : Int) :
    (w.set_data i p).vars.length = w.vars.length := w.setVar_length _ _

theorem World.set_size_length (w : World T) (i n : Nat) :
    (w.set_size i n).vars.length = w.vars.length := w.setVar_length _ _

theorem World.set_capacity_length (w : World T) (i n : Nat) :
    (w.set_capacity i n).vars.length = w.vars.length := w.setVar_length _ _

theorem World.set_data_var (w : World T) (i j : Nat) (p : Int) :
    (w.set_data i p).var j
      = if j = i ∧ i < w.vars.length then { w.var i with m_data := p } else w.var j :=
  w.setVar_var _ _ _

theorem World.set_size_var (w : World T) (i j n : Nat) :
    (w.set_size i n).var j
      = if j = i ∧ i < w.vars.length then { w.var i with m_size := n } else w.var j :=
  w.setVar_var _ _ _

theorem World.set_capacity_var (w : World T) (i j n : Nat) :
    (w.set_capacity i n).var j
      = if j = i ∧ i < w.vars.length then { w.var i with m_capacity := n } else w.var j :=
  w.setVar_var _ _ _

/-! ### The effect of the assignments, object by object -/

theorem World.assign_move_heap (w : World T) (i j : Nat) :
    (w.assign_move i j).heap = w.heap.delete_array (w.var i).m_data := rfl

theorem World.assign_move_length (w : World T) (i j : Nat) :
    (w.assign_move i j).vars.length = w.vars.length := by
  simp [World.assign_move, World.set_data_length, World.set_size_length,
    World.set_capacity_length, World.set_heap_vars]

theorem World.assign_move_var (w : World T) {i j : Nat} (hi : i < w.vars.length)
    (hj : j < w.vars.length) (k : Nat) :
    (w.assign_move i j).var k = if k = j then {} else if k = i then w.var j else w.var k := by
  simp only [World.assign_move, World.set_data_var, World.set_size_var, World.set_capacity_var,
    World.set_data_length, World.set_size_length, World.set_capacity_length,
    World.set_heap_vars, World.set_heap_var, hi, hj, and_true]
  by_cases hkj : k = j
  · subst hkj; simp
  · by_cases hki : k = i
    · subst hki
      have hjk : ¬ j = k := fun e => hkj e.symm
      simp [hkj, hjk]
    · simp [hkj, hki]

theorem World.assign_copy_length (E : Elem T) (w : World T) (i j : Nat) :
    (w.assign_copy E i j).vars.length = w.vars.length := by
  simp [World.assign_copy, World.set_data_length, World.set_size_length,
    World.set_capacity_length, World.set_heap_vars]

theorem World.assign_copy_var (E : Elem T) (w : World T) {i : Nat} (hi : i < w.vars.length)
    (j k : Nat) :
    (w.assign_copy E i j).var k
      = if k = i then ⟨(w.heap.cells.length : Int) + 1, (w.var j).m_size, (w.var j).m_capacity⟩
        else w.var k := by
  simp only [World.assign_copy, World.set_data_var, World.set_size_var, World.set_capacity_var,
    World.set_data_length, World.set_size_length, World.set_capacity_length,
    World.set_heap_vars, World.set_heap_var, World.set_heap_heap, hi, and_true,
    Heap.new_array_addr, Heap.delete_array_length]
  by_cases hki : k = i
  · subst hki
    by_cases hjk : j = k
    · subst hjk; simp
    · simp [hjk]
  · simp [hki]

theorem World.assign_copy_heap (E : Elem T) (w : World T) {i : Nat} (hi : i < w.vars.length)
    (j : Nat) :
    (w.assign_copy E i j).heap
      = uninitialized_copy_n
          ((w.heap.delete_array (w.var i).m_data).new_array (w.var j).m_size E.default_init).1
          (if j = i then (w.heap.cells.length : Int) + 1 else (w.var j).m_data)
          (w.var j).m_size ((w.heap.cells.length : Int) + 1) := by
  simp only [World.assign_copy, World.set_data_var, World.set_size_var, World.set_capacity_var,
    World.set_data_length, World.set_size_length, World.set_capacity_length,
    World.set_heap_vars, World.set_heap_var, World.set_heap_heap, hi, and_true,
    Heap.new_array_addr, Heap.delete_array_length, World.set_data_heap, World.set_size_heap,
    World.set_capacity_heap, uninitialized_copy]
  by_cases hji : j = i
  · subst hji
    simp
  · simp [hji]

theorem World.assign_init_list_length (E : Elem T) (w : World T) (i : Nat) (l : List T) :
    (w.assign_init_list E i l).vars.length = w.vars.length := by
  simp [World.assign_init_list, World.set_data_length, World.set_size_length,
    World.set_capacity_length, World.set_heap_vars]

theorem World.assign_init_list_var (E : Elem T) (w : World T) {i : Nat} (l : List T)
    (hi : i < w.vars.length) (k : Nat) :
    (w.assign_init_list E i l).var k
      = if k = i then ⟨(w.heap.cells.length : Int) + 1, l.length, l.length⟩ else w.var k := by
  simp only [World.assign_init_list, World.set_data_var, World.set_size_var,
    World.set_capacity_var, World.set_data_length, World.set_size_length,
    World.set_capacity_length, World.set_heap_vars, World.set_heap_var, World.set_heap_heap, hi,
    and_true, Heap.new_array_addr, Heap.delete_array_length]
  by_cases hki : k = i
  · subst hki; simp
  · simp [hki]

theorem World.assign_init_list_heap (E : Elem T) (w : World T) {i : Nat} (l : List T)
    (hi : i < w.vars.length) :
    (w.assign_init_list E i l).heap
      = uninitialized_copy_list
          ((w.heap.delete_array (w.var i).m_data).new_array l.length E.default_init).1 l
          ((w.heap.cells.length : Int) + 1) := by
  simp only [World.assign_init_list, World.set_data_var, World.set_size_var,
    World.set_capacity_var, World.set_data_length, World.set_size_length,
    World.set_capacity_length, World.set_heap_vars, World.set_heap_var, World.set_heap_heap, hi,
    and_true, Heap.new_array_addr, Heap.delete_array_length, World.set_data_heap,
    World.set_size_heap, World.set_capacity_heap]
  simp

/-! ### Ownership is kept -/

theorem Heap.kindAt_new_array_old (h : Heap T) (n : Nat) (init : Option T) {q : Int}
    {c : Cell Unit} (hq : h.kindAt q = some c) : (h.new_array n init).1.kindAt q = some c := by
  have hb := Heap.kindAt_some_bounds hq
  unfold Heap.kindAt at hq ⊢
  rw [h.cellAt_new_array_old n init hb.2]
  exact hq

theorem Heap.Block.survives_delete {h : Heap T} {p q : Int} {n m : Nat}
    (hq : h.Block q m) (hp : h.Block p n) (hne : p ≠ q) : (h.delete_array p).Block q m := by
  have hd := hp.disjoint hq hne
  have hh := (h.kindAt_header_iff _ _).mp hp.1
  have hq1 := hq.pos
  have hp1 := hp.pos
  have hlt : p + (n : Int) < q ∨ q + (m : Int) < p := hd
  constructor
  · unfold Heap.kindAt
    rw [h.cellAt_delete_array_frame hh (by omega)]
    exact hq.1
  · intro k hk
    unfold Heap.kindAt
    rw [h.cellAt_delete_array_frame hh (by omega)]
    exact hq.2 k hk

theorem vector.Owned.mono {h h' : Heap T} {v : vector} (hv : v.Owned h)
    (hk : ∀ q c, h.kindAt q = some c → h'.kindAt q = some c) : v.Owned h' := by
  refine ⟨hv.1, ?_⟩
  rcases hv.2 with hnull | hb
  · exact Or.inl hnull
  · exact Or.inr (hb.of_kindAt hk)

theorem vector.Owned.after_delete {h : Heap T} {v u : vector} (hv : v.Owned h) (hu : u.Owned h)
    (hne : u.m_data ≠ 0 → u.m_data ≠ v.m_data) : v.Owned (h.delete_array u.m_data) := by
  by_cases hu0 : u.m_data = 0
  · rw [hu0, Heap.delete_array_null]; exact hv
  · refine ⟨hv.1, ?_⟩
    rcases hv.2 with hnull | hb
    · exact Or.inl hnull
    · rcases hu.2 with hunull | hub
      · exact absurd hunull.1 hu0
      · exact Or.inr (hb.survives_delete hub (hne hu0))

theorem vector.Owned.of_default (h : Heap T) : vector.Owned h {} :=
  ⟨rfl, Or.inl ⟨rfl, rfl⟩⟩

theorem vector.Owned.data_le {h : Heap T} {v : vector} (hv : v.Owned h) :
    v.m_data + (v.m_size : Int) ≤ (h.cells.length : Int) := by
  rcases hv.2 with hnull | hb
  · rw [hnull.1, hnull.2]; simp
  · exact hb.le_length

/-! ### The invariant holds in every reachable state -/

theorem World.WF.of_empty : (World.empty : World T).WF :=
  ⟨fun i hi => by simp [World.empty] at hi, fun i j hi => by simp [World.empty] at hi⟩

theorem World.WF.push {w : World T} (hw : w.WF) {h' : Heap T} {v : vector}
    (hmono : ∀ q c, w.heap.kindAt q = some c → h'.kindAt q = some c)
    (hv : v.Owned h') (hfresh : v.m_data = 0 ∨ (w.heap.cells.length : Int) < v.m_data) :
    (World.mk h' (w.vars ++ [v])).WF := by
  have hvar_old : ∀ k, k < w.vars.length → (World.mk h' (w.vars ++ [v])).var k = w.var k :=
    fun k hk => World.var_append_left h' w.heap w.vars v hk
  have hvar_new : (World.mk h' (w.vars ++ [v])).var w.vars.length = v :=
    World.var_append_right h' w.vars v
  have hlen : (w.vars ++ [v]).length = w.vars.length + 1 := by simp
  constructor
  · intro i hi
    simp only [hlen] at hi
    by_cases hil : i < w.vars.length
    · rw [hvar_old i hil]; exact (hw.owned i hil).mono hmono
    · have : i = w.vars.length := by omega
      subst this
      rw [hvar_new]; exact hv
  · intro i j hi hj hij hne
    simp only [hlen] at hi hj
    by_cases hil : i < w.vars.length
    · rw [hvar_old i hil] at hne ⊢
      by_cases hjl : j < w.vars.length
      · rw [hvar_old j hjl]; exact hw.distinct i j hil hjl hij hne
      · have : j = w.vars.length := by omega
        subst this
        rw [hvar_new]
        have hle := (hw.owned i hil).data_le
        rcases hfresh with h0 | hlt
        · rw [h0]; exact hne
        · omega
    · have : i = w.vars.length := by omega
      subst this
      rw [hvar_new] at hne ⊢
      have hjl : j < w.vars.length := by omega
      rw [hvar_old j hjl]
      have hle := (hw.owned j hjl).data_le
      rcases hfresh with h0 | hlt
      · exact absurd h0 hne
      · omega

theorem World.WF.assign_fresh {w w' : World T} (hw : w.WF) {i : Nat} (hi : i < w.vars.length)
    {v : vector} (hlen : w'.vars.length = w.vars.length)
    (hvar : ∀ k, w'.var k = if k = i then v else w.var k)
    (hmono : ∀ q c, (w.heap.delete_array (w.var i).m_data).kindAt q = some c →
      w'.heap.kindAt q = some c)
    (hv : v.Owned w'.heap) (hfresh : (w.heap.cells.length : Int) < v.m_data) : w'.WF := by
  constructor
  · intro k hk
    rw [hlen] at hk
    rw [hvar k]
    by_cases hki : k = i
    · simp only [hki, if_true]; exact hv
    · simp only [hki, if_false]
      exact ((hw.owned k hk).after_delete (hw.owned i hi)
        (fun h0 => hw.distinct i k hi hk (fun e => hki e.symm) h0)).mono hmono
  · intro k l hk hl hkl hne
    rw [hlen] at hk hl
    rw [hvar k] at hne
    rw [hvar k, hvar l]
    have hlek := (hw.owned k hk).data_le
    have hlel := (hw.owned l hl).data_le
    by_cases hki : k = i
    · have hli : ¬ l = i := fun e => hkl (hki.trans e.symm)
      simp only [hki, hli, if_true, if_false]
      omega
    · simp only [hki, if_false] at hne ⊢
      by_cases hli : l = i
      · simp only [hli, if_true]
        omega
      · simp only [hli, if_false]
        exact hw.distinct k l hk hl hkl hne

theorem World.WF.assign_move {w : World T} (hw : w.WF) {i j : Nat} (hi : i < w.vars.length)
    (hj : j < w.vars.length) : (w.assign_move i j).WF := by
  have hframe : ∀ k, k < w.vars.length → k ≠ i →
      (w.var k).Owned (w.heap.delete_array (w.var i).m_data) := fun k hk hki =>
    (hw.owned k hk).after_delete (hw.owned i hi)
      (fun h0 => hw.distinct i k hi hk (fun e => hki e.symm) h0)
  constructor
  · intro k hk
    rw [World.assign_move_length] at hk
    rw [World.assign_move_var w hi hj k, World.assign_move_heap]
    by_cases hkj : k = j
    · simp only [hkj, if_true]; exact vector.Owned.of_default _
    · simp only [hkj, if_false]
      by_cases hki : k = i
      · simp only [hki, if_true]
        exact hframe j hj (fun e => hkj (hki.trans e.symm))
      · simp only [hki, if_false]
        exact hframe k hk hki
  · intro k l hk hl hkl hne
    rw [World.assign_move_length] at hk hl
    rw [World.assign_move_var w hi hj k] at hne
    rw [World.assign_move_var w hi hj k, World.assign_move_var w hi hj l]
    by_cases hkj : k = j
    · simp only [hkj, if_true] at hne
      exact absurd rfl hne
    · simp only [hkj, if_false] at hne ⊢
      by_cases hlj : l = j
      · simp only [hlj, if_true]
        exact hne
      · simp only [hlj, if_false]
        by_cases hki : k = i
        · have hli : ¬ l = i := fun e => hkl (hki.trans e.symm)
          simp only [hki, hli, if_true, if_false] at hne ⊢
          exact hw.distinct j l hj hl (fun e => hlj e.symm) hne
        · simp only [hki, if_false] at hne ⊢
          by_cases hli : l = i
          · simp only [hli, if_true]
            exact hw.distinct k j hk hj hkj hne
          · simp only [hli, if_false]
            exact hw.distinct k l hk hl hkl hne

theorem World.construct_move_length (w : World T) (j : Nat) :
    (w.construct_move j).vars.length = w.vars.length + 1 := by
  simp [World.construct_move]

theorem World.construct_move_heap (w : World T) (j : Nat) :
    (w.construct_move j).heap = w.heap := rfl

theorem World.construct_move_var_new (w : World T) (j : Nat) :
    (w.construct_move j).var w.vars.length = w.var j := by
  have := World.var_append_right w.heap (w.vars.set j (vector.ctor_move (w.var j)).2)
    (vector.ctor_move (w.var j)).1
  rw [List.length_set] at this
  exact this

theorem World.construct_move_var_old (w : World T) {j k : Nat} (hk : k < w.vars.length) :
    (w.construct_move j).var k = if k = j then {} else w.var k := by
  have h1 : (w.construct_move j).var k = (w.setVar j (vector.ctor_move (w.var j)).2).var k :=
    World.var_append_left w.heap w.heap _ _ (by rw [List.length_set]; exact hk)
  rw [h1, World.setVar_var]
  by_cases hkj : k = j
  · subst hkj; simp [hk]; rfl
  · simp [hkj]

theorem World.WF.construct_move {w : World T} (hw : w.WF) {j : Nat} (hj : j < w.vars.length) :
    (w.construct_move j).WF := by
  constructor
  · intro k hk
    rw [World.construct_move_length] at hk
    rw [World.construct_move_heap]
    by_cases hkl : k < w.vars.length
    · rw [World.construct_move_var_old w hkl]
      by_cases hkj : k = j
      · simp only [hkj, if_true]; exact vector.Owned.of_default _
      · simp only [hkj, if_false]; exact hw.owned k hkl
    · have : k = w.vars.length := by omega
      subst this
      rw [World.construct_move_var_new]; exact hw.owned j hj
  · intro k l hk hl hkl hne
    rw [World.construct_move_length] at hk hl
    by_cases hk1 : k < w.vars.length
    · rw [World.construct_move_var_old w hk1] at hne ⊢
      by_cases hkj : k = j
      · simp only [hkj, if_true] at hne
        exact absurd rfl hne
      · simp only [hkj, if_false] at hne ⊢
        by_cases hl1 : l < w.vars.length
        · rw [World.construct_move_var_old w hl1]
          by_cases hlj : l = j
          · simp only [hlj, if_true]; exact hne
          · simp only [hlj, if_false]; exact hw.distinct k l hk1 hl1 hkl hne
        · have : l = w.vars.length := by omega
          subst this
          rw [World.construct_move_var_new]
          exact hw.distinct k j hk1 hj hkj hne
    · have : k = w.vars.length := by omega
      subst this
      rw [World.construct_move_var_new] at hne ⊢
      have hl1 : l < w.vars.length := by omega
      rw [World.construct_move_var_old w hl1]
      by_cases hlj : l = j
      · simp only [hlj, if_true]; exact hne
      · simp only [hlj, if_false]
        exact hw.distinct j l hj hl1 (fun e => hlj e.symm) hne

theorem World.WF.push_alloc {w : World T} (hw : w.WF) (n : Nat) (init : Option T)
    {h' : Heap T} (hk : ∀ q, h'.kindAt q = (w.heap.new_array n init).1.kindAt q)
    {cap : Nat} (hcap : cap = n) :
    (World.mk h' (w.vars ++ [⟨(w.heap.cells.length : Int) + 1, n, cap⟩])).WF := by
  apply hw.push
  · intro q c hq
    rw [hk]; exact w.heap.kindAt_new_array_old n init hq
  · refine ⟨hcap, Or.inr ?_⟩
    exact (w.heap.block_new_array n init).of_kindAt (fun q c hq => by rw [hk]; exact hq)
  · right
    simp

theorem kindAt_uninitialized_fill (h : Heap T) (first last : Int) (value : T) (q : Int) :
    (uninitialized_fill h first last value).kindAt q = h.kindAt q := by
  rw [uninitialized_fill, uninitialized_fill_n_eq_copy_list, kindAt_uninitialized_copy_list]

theorem kindAt_uninitialized_copy (h : Heap T) (first last d : Int) (q : Int) :
    (uninitialized_copy h first last d).kindAt q = h.kindAt q := by
  rw [uninitialized_copy, kindAt_uninitialized_copy_n]

theorem World.WF.construct_default {w : World T} (hw : w.WF) : w.construct_default.WF :=
  hw.push (fun _ _ hq => hq) (vector.Owned.of_default _) (Or.inl rfl)

theorem World.WF.construct_size (E : Elem T) {w : World T} (hw : w.WF) (n : Nat) :
    (w.construct_size E n).WF :=
  hw.push_alloc n (some E.value_init) (fun _ => rfl) rfl

theorem World.WF.construct_fill (E : Elem T) {w : World T} (hw : w.WF) (n : Nat) (value : T) :
    (w.construct_fill E n value).WF :=
  hw.push_alloc n E.default_init (fun q => kindAt_uninitialized_fill _ _ _ _ q) rfl

theorem World.WF.construct_range (E : Elem T) {w : World T} (hw : w.WF) (src : List T) :
    (w.construct_range E src).WF :=
  hw.push_alloc src.length E.default_init (fun q => kindAt_uninitialized_copy_list _ _ _ q) rfl

theorem World.WF.construct_init_list (E : Elem T) {w : World T} (hw : w.WF) (l : List T) :
    (w.construct_init_list E l).WF :=
  hw.push_alloc l.length E.default_init (fun q => kindAt_uninitialized_copy_list _ _ _ q) rfl

theorem World.WF.construct_copy (E : Elem T) {w : World T} (hw : w.WF) {j : Nat}
    (hj : j < w.vars.length) : (w.construct_copy E j).WF :=
  hw.push_alloc (w.var j).m_size E.default_init (fun q => kindAt_uninitialized_copy _ _ _ _ q)
    (hw.owned j hj).1

theorem World.WF.assign_copy (E : Elem T) {w : World T} (hw : w.WF) {i j : Nat}
    (hi : i < w.vars.length) (hj : j < w.vars.length) : (w.assign_copy E i j).WF := by
  have hkind : ∀ q, (w.assign_copy E i j).heap.kindAt q
      = ((w.heap.delete_array (w.var i).m_data).new_array (w.var j).m_size
          E.default_init).1.kindAt q := fun q => by
    rw [World.assign_copy_heap E w hi j, kindAt_uninitialized_copy_n]
  apply hw.assign_fresh hi (World.assign_copy_length E w i j)
    (fun k => World.assign_copy_var E w hi j k)
  · intro q c hq
    rw [hkind]; exact Heap.kindAt_new_array_old _ _ _ hq
  · refine ⟨(hw.owned j hj).1, Or.inr ?_⟩
    have hb := (w.heap.delete_array (w.var i).m_data).block_new_array (w.var j).m_size
      E.default_init
    rw [Heap.new_array_addr, Heap.delete_array_length] at hb
    exact hb.of_kindAt (fun q c hq => by rw [hkind]; exact hq)
  · simp

theorem World.WF.assign_init_list (E : Elem T) {w : World T} (hw : w.WF) {i : Nat}
    (hi : i < w.vars.length) (l : List T) : (w.assign_init_list E i l).WF := by
  have hkind : ∀ q, (w.assign_init_list E i l).heap.kindAt q
      = ((w.heap.delete_array (w.var i).m_data).new_array l.length
          E.default_init).1.kindAt q := fun q => by
    rw [World.assign_init_list_heap E w l hi, kindAt_uninitialized_copy_list]
  apply hw.assign_fresh hi (World.assign_init_list_length E w i l)
    (fun k => World.assign_init_list_var E w l hi k)
  · intro q c hq
    rw [hkind]; exact Heap.kindAt_new_array_old _ _ _ hq
  · refine ⟨rfl, Or.inr ?_⟩
    have hb := (w.heap.delete_array (w.var i).m_data).block_new_array l.length E.default_init
    rw [Heap.new_array_addr, Heap.delete_array_length] at hb
    exact hb.of_kindAt (fun q c hq => by rw [hkind]; exact hq)
  · simp

theorem World.WF.step_preserves (E : Elem T) {w : World T} (hw : w.WF) (op : Op T) :
    (w.step E op).WF := by
  cases op with
  | ctor_default => exact hw.construct_default
  | ctor_size n => exact hw.construct_size E n
  | ctor_fill n value => exact hw.construct_fill E n value
  | ctor_range src => exact hw.construct_range E src
  | ctor_copy j =>
    simp only [World.step]
    split
    · rename_i hj; exact hw.construct_copy E hj
    · exact hw
  | ctor_move j =>
    simp only [World.step]
    split
    · rename_i hj; exact hw.construct_move hj
    · exact hw
  | ctor_init_list l => exact hw.construct_init_list E l
  | assign_copy i j =>
    simp only [World.step]
    split
    · rename_i hij; exact hw.assign_copy E hij.1 hij.2
    · exact hw
  | assign_move i j =>
    simp only [World.step]
    split
    · rename_i hij; exact hw.assign_move hij.1 hij.2
    · exact hw
  | assign_init_list i l =>
    simp only [World.step]
    split
    · rename_i hi; exact hw.assign_init_list E hi l
    · exact hw

theorem World.WF.foldl (E : Elem T) (ops : List (Op T)) {w : World T} (hw : w.WF) :
    (ops.foldl (World.step E) w).WF := by
  induction ops generalizing w with
  | nil => exact hw
  | cons op ops ih => exact ih (hw.step_preserves E op)

theorem Reachable.wf {E : Elem T} {w : World T} (hw : Reachable E w) : w.WF := by
  obtain ⟨ops, rfl⟩ := hw
  exact World.WF.foldl E ops World.WF.of_empty

theorem Reachable.after_step {E : Elem T} {w : World T} (hw : Reachable E w) (op : Op T) :
    Reachable E (w.step E op) := by
  obtain ⟨ops, rfl⟩ := hw
  exact ⟨ops ++ [op], by simp [World.run, List.foldl_append]⟩

/-! ### Elements under copy, move and release -/

theorem vector.traversal_eq (h : Heap T) (v : vector) (fuel : Nat) :
    v.traversal h fuel = if v.m_size < fuel then some (v.elems h) else none :=
  vector.traverse_eq h v fuel

theorem vector.elems_congr {h h' : Heap T} {v v' : vector} (hs : v'.m_size = v.m_size)
    (hl : ∀ k : Nat, k < v.m_size →
      h'.cellAt (v'.m_data + (k : Int)) = h.cellAt (v.m_data + (k : Int))) :
    v'.elems h' = v.elems h := by
  simp only [vector.elems, hs]
  apply List.map_congr_left
  intro k hk
  exact Heap.load_congr (hl k (List.mem_range.mp hk))

theorem vector.traversal_congr {h h' : Heap T} {v v' : vector} (hs : v'.m_size = v.m_size)
    (hl : ∀ k : Nat, k < v.m_size →
      h'.cellAt (v'.m_data + (k : Int)) = h.cellAt (v.m_data + (k : Int))) (fuel : Nat) :
    v'.traversal h' fuel = v.traversal h fuel := by
  rw [vector.traversal_eq, vector.traversal_eq, hs, vector.elems_congr hs hl]

theorem vector.Owned.cellAt_delete_other {h : Heap T} {v u : vector} (hv : v.Owned h)
    (hu : u.Owned h) (hne : u.m_data ≠ 0 → u.m_data ≠ v.m_data) (k : Nat) (hk : k < v.m_size) :
    (h.delete_array u.m_data).cellAt (v.m_data + (k : Int)) = h.cellAt (v.m_data + (k : Int)) := by
  by_cases hu0 : u.m_data = 0
  · rw [hu0, Heap.delete_array_null]
  · rcases hu.2 with hunull | hub
    · exact absurd hunull.1 hu0
    · rcases hv.2 with hvnull | hvb
      · omega
      · have hd := hub.disjoint hvb (hne hu0)
        have hh := (h.kindAt_header_iff _ _).mp hub.1
        exact h.cellAt_delete_array_frame hh (by omega)

theorem vector.ctor_copy_fields (E : Elem T) (h : Heap T) (other : vector) :
    (vector.ctor_copy E h other).2
      = ⟨(h.cells.length : Int) + 1, other.m_size, other.m_capacity⟩ := rfl

theorem vector.ctor_copy_heap (E : Elem T) (h : Heap T) (other : vector) :
    (vector.ctor_copy E h other).1
      = uninitialized_copy_n (h.new_array other.m_size E.default_init).1 other.m_data
          other.m_size ((h.cells.length : Int) + 1) := by
  simp only [vector.ctor_copy, uninitialized_copy, Heap.new_array_addr]
  congr 1
  omega

theorem vector.ctor_copy_block (E : Elem T) (h : Heap T) (other : vector) :
    (vector.ctor_copy E h other).1.Block ((h.cells.length : Int) + 1) other.m_size := by
  rw [vector.ctor_copy_heap]
  exact (h.block_new_array other.m_size E.default_init).of_kindAt
    (fun q c hq => by rw [kindAt_uninitialized_copy_n]; exact hq)

theorem vector.ctor_copy_old (E : Elem T) (h : Heap T) (other : vector) {q : Int}
    (hq : q < (h.cells.length : Int)) : (vector.ctor_copy E h other).1.cellAt q = h.cellAt q := by
  rw [vector.ctor_copy_heap, cellAt_uninitialized_copy_n_frame _ _ _ _ (by omega)]
  exact h.cellAt_new_array_old _ _ hq

theorem vector.ctor_copy_cell (E : Elem T) (h : Heap T) {other : vector}
    (ho : other.Owned h) (k : Nat) (hk : k < other.m_size) :
    (vector.ctor_copy E h other).1.cellAt ((h.cells.length : Int) + 1 + (k : Int))
      = some (Cell.live (h.load (other.m_data + (k : Int)))) := by
  have hle := ho.data_le
  rw [vector.ctor_copy_heap,
    cellAt_uninitialized_copy_n _ _ _ _ (by omega)
      (h.block_new_array_at other.m_size E.default_init).2 k hk]
  congr 2
  exact Heap.load_congr (h.cellAt_new_array_old _ _ (by omega))

theorem vector.ctor_copy_elems (E : Elem T) (h : Heap T) {other : vector} (ho : other.Owned h) :
    (vector.ctor_copy E h other).2.elems (vector.ctor_copy E h other).1 = other.elems h := by
  simp only [vector.elems, vector.ctor_copy_fields]
  apply List.map_congr_left
  intro k hk
  rw [Heap.load_of_cellAt (vector.ctor_copy_cell E h ho k (List.mem_range.mp hk))]

theorem World.assign_move_spec {w : World T} (hw : w.WF) {i j : Nat} (hi : i < w.vars.length)
    (hj : j < w.vars.length) (hij : i ≠ j) (fuel : Nat) :
    (w.assign_move i j).var i = w.var j
    ∧ ((w.assign_move i j).var i).traversal (w.assign_move i j).heap fuel
        = (w.var j).traversal w.heap fuel
    ∧ (w.assign_move i j).var j = ⟨0, 0, 0⟩ := by
  have hdst : (w.assign_move i j).var i = w.var j := by
    rw [World.assign_move_var w hi hj i]
    simp [hij]
  have hsrc : (w.assign_move i j).var j = ⟨0, 0, 0⟩ := by
    rw [World.assign_move_var w hi hj j]
    simp
  refine ⟨hdst, ?_, hsrc⟩
  rw [hdst, World.assign_move_heap]
  apply vector.traversal_congr rfl
  intro k hk
  exact (hw.owned j hj).cellAt_delete_other (hw.owned i hi)
    (fun h0 => hw.distinct i j hi hj hij h0) k hk

end WorldLemmas

/-! ## Facts for the sized constructors and the copy assignment -/

section MoreLemmas

variable {T : Type}

theorem vector.elems_eq_of_load_eq {h h' : Heap T} {v v' : vector} (hs : v'.m_size = v.m_size)
    (hl : ∀ k : Nat, k < v.m_size →
      h'.load (v'.m_data + (k : Int)) = h.load (v.m_data + (k : Int))) :
    v'.elems h' = v.elems h := by
  simp only [vector.elems, hs]
  apply List.map_congr_left
  intro k hk
  exact hl k (List.mem_range.mp hk)

theorem vector.elems_eq_replicate (h : Heap T) (v : vector) (x : Option T)
    (hl : ∀ k : Nat, k < v.m_size → h.load (v.m_data + (k : Int)) = x) :
    v.elems h = List.replicate v.m_size x := by
  apply vector.elems_eq_of_load h v
  · simp
  · intro k hk
    rw [hl k hk, List.getD_eq_getElem?_getD, List.getElem?_replicate]
    simp [hk]

theorem vector.ctor_size_fields (E : Elem T) (h : Heap T) (n : Nat) :
    (vector.ctor_size E h n).2 = ⟨(h.cells.length : Int) + 1, n, n⟩ := rfl

theorem vector.ctor_size_elems (E : Elem T) (h : Heap T) (n : Nat) :
    (vector.ctor_size E h n).2.elems (vector.ctor_size E h n).1
      = List.replicate n (some E.value_init) := by
  have := vector.elems_eq_replicate (vector.ctor_size E h n).1 (vector.ctor_size E h n).2
    (some E.value_init) (fun k hk =>
      Heap.load_of_cellAt (h.cellAt_new_array_elem n (some E.value_init) hk))
  exact this

theorem vector.ctor_fill_fields (E : Elem T) (h : Heap T) (n : Nat) (value : T) :
    (vector.ctor_fill E h n value).2 = ⟨(h.cells.length : Int) + 1, n, n⟩ := rfl

theorem vector.ctor_fill_heap (E : Elem T) (h : Heap T) (n : Nat) (value : T) :
    (vector.ctor_fill E h n value).1
      = uninitialized_copy_list (h.new_array n E.default_init).1 (List.replicate n value)
          ((h.cells.length : Int) + 1) := by
  simp only [vector.ctor_fill, uninitialized_fill, Heap.new_array_addr]
  rw [uninitialized_fill_n_eq_copy_list]
  congr 2
  omega

theorem vector.ctor_fill_elems (E : Elem T) (h : Heap T) (n : Nat) (value : T) :
    (vector.ctor_fill E h n value).2.elems (vector.ctor_fill E h n value).1
      = List.replicate n (some value) := by
  apply vector.elems_eq_replicate
  intro k hk
  have hk1 : k < (List.replicate n value).length := by simpa using hk
  have hc := cellAt_uninitialized_copy_list (h.new_array n E.default_init).1
    (List.replicate n value) ((h.cells.length : Int) + 1)
    (fun j hj => (h.block_new_array_at n E.default_init).2 j (by simpa using hj)) k hk1
  rw [vector.ctor_fill_heap, vector.ctor_fill_fields]
  rw [Heap.load_of_cellAt hc]
  simp

theorem vector.Owned.cell_live {h : Heap T} {v : vector} (hv : v.Owned h) {k : Nat}
    (hk : k < v.m_size) : ∃ u, h.cellAt (v.m_data + (k : Int)) = some (Cell.live u) := by
  rcases hv.2 with hnull | hb
  · omega
  · exact (h.kindAt_live_iff _).mp (hb.2 k hk)

theorem World.assign_copy_heap_ne (E : Elem T) (w : World T) {i j : Nat}
    (hi : i < w.vars.length) (hij : i ≠ j) :
    (w.assign_copy E i j).heap
      = uninitialized_copy_n
          ((w.heap.delete_array (w.var i).m_data).new_array (w.var j).m_size E.default_init).1
          (w.var j).m_data (w.var j).m_size ((w.heap.cells.length : Int) + 1) := by
  rw [World.assign_copy_heap E w hi j, if_neg (fun e => hij e.symm)]

theorem World.assign_copy_block (E : Elem T) (w : World T) {i : Nat} (hi : i < w.vars.length)
    (j : Nat) :
    (w.assign_copy E i j).heap.Block ((w.heap.cells.length : Int) + 1) (w.var j).m_size := by
  have hb := (w.heap.delete_array (w.var i).m_data).block_new_array_at (w.var j).m_size
    E.default_init
  rw [Heap.delete_array_length] at hb
  rw [World.assign_copy_heap E w hi j]
  exact hb.of_kindAt (fun q c hq => by rw [kindAt_uninitialized_copy_n]; exact hq)

theorem World.assign_copy_src_cell (E : Elem T) {w : World T} (hw : w.WF) {i j : Nat}
    (hi : i < w.vars.length) (hj : j < w.vars.length) (hij : i ≠ j) (k : Nat)
    (hk : k < (w.var j).m_size) :
    (w.assign_copy E i j).heap.cellAt ((w.var j).m_data + (k : Int))
      = w.heap.cellAt ((w.var j).m_data + (k : Int)) := by
  have hle := (hw.owned j hj).data_le
  rw [World.assign_copy_heap_ne E w hi hij,
    cellAt_uninitialized_copy_n_frame _ _ _ _ (by omega),
    Heap.cellAt_new_array_old _ _ _ (by rw [Heap.delete_array_length]; omega)]
  exact (hw.owned j hj).cellAt_delete_other (hw.owned i hi)
    (fun h0 => hw.distinct i j hi hj hij h0) k hk

theorem World.assign_copy_dst_cell (E : Elem T) {w : World T} (hw : w.WF) {i j : Nat}
    (hi : i < w.vars.length) (hj : j < w.vars.length) (hij : i ≠ j) (k : Nat)
    (hk : k < (w.var j).m_size) :
    (w.assign_copy E i j).heap.cellAt ((w.heap.cells.length : Int) + 1 + (k : Int))
      = w.heap.cellAt ((w.var j).m_data + (k : Int)) := by
  have hle := (hw.owned j hj).data_le
  obtain ⟨u, hu⟩ := (hw.owned j hj).cell_live hk
  have hb := (w.heap.delete_array (w.var i).m_data).block_new_array_at (w.var j).m_size
    E.default_init
  rw [Heap.delete_array_length] at hb
  rw [World.assign_copy_heap_ne E w hi hij,
    cellAt_uninitialized_copy_n _ _ _ _ (by omega) hb.2 k hk, hu]
  congr 2
  have e1 : ((w.heap.delete_array (w.var i).m_data).new_array (w.var j).m_size
      E.default_init).1.cellAt ((w.var j).m_data + (k : Int))
      = w.heap.cellAt ((w.var j).m_data + (k : Int)) := by
    rw [Heap.cellAt_new_array_old _ _ _ (by rw [Heap.delete_array_length]; omega)]
    exact (hw.owned j hj).cellAt_delete_other (hw.owned i hi)
      (fun h0 => hw.distinct i j hi hj hij h0) k hk
  rw [Heap.load_congr e1]
  exact Heap.load_of_cellAt hu

theorem World.assign_copy_spec (E : Elem T) {w : World T} (hw : w.WF) {i j : Nat}
    (hi : i < w.vars.length) (hj : j < w.vars.length) (hij : i ≠ j) (fuel : Nat) :
    (w.assign_copy E i j).var i
        = ⟨(w.heap.cells.length : Int) + 1, (w.var j).m_size, (w.var j).m_capacity⟩
    ∧ ((w.assign_copy E i j).var i).traversal (w.assign_copy E i j).heap fuel
        = (w.var j).traversal w.heap fuel
    ∧ (w.assign_copy E i j).var j = w.var j
    ∧ ((w.assign_copy E i j).var j).traversal (w.assign_copy E i j).heap fuel
        = (w.var j).traversal w.heap fuel := by
  have hdst : (w.assign_copy E i j).var i
      = ⟨(w.heap.cells.length : Int) + 1, (w.var j).m_size, (w.var j).m_capacity⟩ := by
    rw [World.assign_copy_var E w hi j i]; simp
  have hsrc : (w.assign_copy E i j).var j = w.var j := by
    rw [World.assign_copy_var E w hi j j, if_neg (fun e => hij e.symm)]
  refine ⟨hdst, ?_, hsrc, ?_⟩
  · rw [hdst]
    apply vector.traversal_congr
    · rfl
    · intro k hk
      exact World.assign_copy_dst_cell E hw hi hj hij k hk
  · rw [hsrc]
    apply vector.traversal_congr
    · rfl
    · intro k hk
      exact World.assign_copy_src_cell E hw hi hj hij k hk

theorem Heap.load_delete_array_inside (h : Heap T) {p : Int} {n : Nat} (hb : h.Block p n)
    {k : Nat} (hk : k < n) : (h.delete_array p).load (p + (k : Int)) = none := by
  have hp := hb.pos
  have hh := (h.kindAt_header_iff _ _).mp hb.1
  obtain ⟨u, hu⟩ := (h.kindAt_live_iff _).mp (hb.2 k hk)
  have hc := h.cellAt_delete_array (by omega : p ≠ 0) hh (p + (k : Int))
  rw [if_pos (by omega), hu] at hc
  simp [Heap.load, hc]

theorem World.push_length (h : Heap T) (w : World T) (v : vector) :
    (World.mk h (w.vars ++ [v])).vars.length = w.vars.length + 1 := by
  simp

theorem World.push_var (h : Heap T) (w : World T) (v : vector) {i : Nat}
    (hi : i < w.vars.length + 1) :
    (World.mk h (w.vars ++ [v])).var i = if i < w.vars.length then w.var i else v := by
  by_cases hil : i < w.vars.length
  · rw [if_pos hil]; exact World.var_append_left h w.heap w.vars v hil
  · have : i = w.vars.length := by omega
    subst this
    rw [if_neg hil]; exact World.var_append_right h w.vars v

/-- Size at most capacity, for every object of a state. -/
theorem World.size_le_capacity_push {w : World T} (h : Heap T) {v : vector}
    (hinv : ∀ i, i < w.vars.length → (w.var i).m_size ≤ (w.var i).m_capacity)
    (hv : v.m_size ≤ v.m_capacity) (i : Nat) (hi : i < (World.mk h (w.vars ++ [v])).vars.length) :
    ((World.mk h (w.vars ++ [v])).var i).m_size
      ≤ ((World.mk h (w.vars ++ [v])).var i).m_capacity := by
  rw [World.push_length] at hi
  rw [World.push_var h w v hi]
  by_cases hil : i < w.vars.length
  · simp only [hil, if_true]; exact hinv i hil
  · simp only [hil, if_false]; exact hv

theorem World.size_le_capacity_step (E : Elem T) (w : World T) (op : Op T)
    (hinv : ∀ i, i < w.vars.length → (w.var i).m_size ≤ (w.var i).m_capacity)
    (i : Nat) (hi : i < (w.step E op).vars.length) :
    ((w.step E op).var i).m_size ≤ ((w.step E op).var i).m_capacity := by
  cases op with
  | ctor_default => exact World.size_le_capacity_push _ hinv (le_refl _) i hi
  | ctor_size n => exact World.size_le_capacity_push _ hinv (le_refl _) i hi
  | ctor_fill n value => exact World.size_le_capacity_push _ hinv (le_refl _) i hi
  | ctor_range src => exact World.size_le_capacity_push _ hinv (le_refl _) i hi
  | ctor_init_list l => exact World.size_le_capacity_push _ hinv (le_refl _) i hi
  | ctor_copy j =>
    simp only [World.step] at hi ⊢
    split at hi
    · rename_i hj
      rw [if_pos hj]
      exact World.size_le_capacity_push (v := (vector.ctor_copy E w.heap (w.var j)).2) _ hinv
        (hinv j hj) i hi
    · rename_i hj
      rw [if_neg hj]; exact hinv i hi
  | ctor_move j =>
    simp only [World.step] at hi ⊢
    split at hi
    · rename_i hj
      rw [if_pos hj]
      rw [World.construct_move_length] at hi
      by_cases hil : i < w.vars.length
      · rw [World.construct_move_var_old w hil]
        by_cases hij : i = j
        · simp [hij]
        · simp only [hij, if_false]; exact hinv i hil
      · have : i = w.vars.length := by omega
        subst this
        rw [World.construct_move_var_new]; exact hinv j hj
    · rename_i hj
      rw [if_neg hj]; exact hinv i hi
  | assign_copy d j =>
    simp only [World.step] at hi ⊢
    split at hi
    · rename_i hdj
      rw [if_pos hdj]
      rw [World.assign_copy_length] at hi
      rw [World.assign_copy_var E w hdj.1 j i]
      by_cases hid : i = d
      · simp only [hid, if_true]; exact hinv j hdj.2
      · simp only [hid, if_false]; exact hinv i hi
    · rename_i hdj
      rw [if_neg hdj]; exact hinv i hi
  | assign_move d j =>
    simp only [World.step] at hi ⊢
    split at hi
    · rename_i hdj
      rw [if_pos hdj]
      rw [World.assign_move_length] at hi
      rw [World.assign_move_var w hdj.1 hdj.2 i]
      by_cases hij : i = j
      · simp [hij]
      · simp only [hij, if_false]
        by_cases hid : i = d
        · simp only [hid, if_true]; exact hinv j hdj.2
        · simp only [hid, if_false]; exact hinv i hi
    · rename_i hdj
      rw [if_neg hdj]; exact hinv i hi
  | assign_init_list d l =>
    simp only [World.step] at hi ⊢
    split at hi
    · rename_i hd
      rw [if_pos hd]
      rw [World.assign_init_list_length] at hi
      rw [World.assign_init_list_var E w l hd i]
      by_cases hid : i = d
      · simp [hid]
      · simp only [hid, if_false]; exact hinv i hi
    · rename_i hd
      rw [if_neg hd]; exact hinv i hi

end MoreLemmas

/-! ## The claims -/

section Claims

variable {T : Type}

/-- C1: the container built from an initializer list `L` is walked from `begin()` with `*it` and
`++it` until `it == end()`: the walk ends after exactly `|L|` elements (it needs `|L| + 1` tests of
the loop condition, and fewer do not reach `end()`), and the values seen are those of `L` in
order. -/
theorem C1_init_list_traversal (E : Elem T) (h : Heap T) (L : List T) (fuel : Nat) :
    traverse (vector.ctor_init_list E h L).1 fuel
        (vector.ctor_init_list E h L).2.begin (vector.ctor_init_list E h L).2.end_
      = if L.length < fuel then some (L.map some) else none := by
  rw [vector.traverse_eq, vector.ctor_init_list_elems]
  rfl

/-- The scenario of C1: `{1,2,3,4}` is traversed as `1,2,3,4`. -/
theorem init_list_1234_traversal :
    traverse (vector.ctor_init_list intElem ⟨[]⟩ [1, 2, 3, 4]).1 5
        (vector.ctor_init_list intElem ⟨[]⟩ [1, 2, 3, 4]).2.begin
        (vector.ctor_init_list intElem ⟨[]⟩ [1, 2, 3, 4]).2.end_
      = some [some 1, some 2, some 3, some 4] := by
  decide

/-- C2 (the code at the failing input): for the container built from `{1,2,3,4}` the expression
`end() - begin()` is an iterator holding the pointer difference `begin - end = -4`, not the
element count `4`. -/
theorem C2_end_minus_begin_is_negated :
    (vector_iterator.diff (vector.ctor_init_list intElem ⟨[]⟩ [1, 2, 3, 4]).2.end_
        (vector.ctor_init_list intElem ⟨[]⟩ [1, 2, 3, 4]).2.begin).m_ptr = -4
      ∧ (vector.ctor_init_list intElem ⟨[]⟩ [1, 2, 3, 4]).2.m_size = 4 := by
  decide

/-- For every container `end() - begin()` holds minus the element count. -/
theorem vector.end_minus_begin (v : vector) :
    (vector_iterator.diff v.end_ v.begin).m_ptr = -(v.m_size : Int) := by
  simp [vector_iterator.diff, vector.end_, vector.begin]

/-- C3 (the code at the failing input): for the iterator at address `10`, both `it + 3` and
`3 + it` are iterators at address `10`, not `13`. -/
theorem C3_add_does_not_advance :
    (vector_iterator.add ⟨10⟩ 3).m_ptr = 10 ∧ (vector_iterator.add_left 3 ⟨10⟩).m_ptr = 10 := by
  decide

/-- For every iterator and offset, `it + n` and `n + it` are copies of `it`. -/
theorem vector_iterator.add_eq_self (it : vector_iterator) (n : Int) :
    vector_iterator.add it n = it ∧ vector_iterator.add_left n it = it :=
  ⟨rfl, rfl⟩

/-- C4 (the code at the failing input): after `it += 3` on the iterator at address `10`, the
iterator and the reference returned are still at address `10`, not `13`. -/
theorem C4_add_assign_does_not_advance :
    (vector_iterator.add_assign ⟨10⟩ 3).1.m_ptr = 10
      ∧ (vector_iterator.add_assign ⟨10⟩ 3).2.m_ptr = 10 := by
  decide

/-- C5 (the code at the failing input): in the container built from `{1,2,3,4}`, `begin()[1]` is the
element `2` while `*(begin() + 1)` is the element `1`: they are different elements. -/
theorem C5_index_differs_from_deref_add :
    (vector.ctor_init_list intElem ⟨[]⟩ [1, 2, 3, 4]).1.load
        (vector_iterator.index (vector.ctor_init_list intElem ⟨[]⟩ [1, 2, 3, 4]).2.begin 1)
      = some 2
    ∧ (vector.ctor_init_list intElem ⟨[]⟩ [1, 2, 3, 4]).1.load
        (vector_iterator.deref
          (vector_iterator.add (vector.ctor_init_list intElem ⟨[]⟩ [1, 2, 3, 4]).2.begin 1))
      = some 1
    ∧ vector_iterator.index (vector.ctor_init_list intElem ⟨[]⟩ [1, 2, 3, 4]).2.begin 1
      ≠ vector_iterator.deref
          (vector_iterator.add (vector.ctor_init_list intElem ⟨[]⟩ [1, 2, 3, 4]).2.begin 1) := by
  decide

/-- C6 (the code at the failing input): the container built from `{1,2,3,4}` is traversed as
`1,2,3,4`; after `c = c` it has size 4 and capacity 4 but its traversal reads four elements of
indeterminate value from a new buffer: the former elements are gone. -/
theorem C6_self_copy_assign_loses_elements :
    traverse (World.run intElem [Op.ctor_init_list [1, 2, 3, 4]]).heap 5
        ((World.run intElem [Op.ctor_init_list [1, 2, 3, 4]]).var 0).begin
        ((World.run intElem [Op.ctor_init_list [1, 2, 3, 4]]).var 0).end_
      = some [some 1, some 2, some 3, some 4]
    ∧ traverse ((World.run intElem [Op.ctor_init_list [1, 2, 3, 4]]).assign_copy intElem 0 0).heap 5
        (((World.run intElem [Op.ctor_init_list [1, 2, 3, 4]]).assign_copy intElem 0 0).var 0).begin
        (((World.run intElem [Op.ctor_init_list [1, 2, 3, 4]]).assign_copy intElem 0 0).var 0).end_
      = some [none, none, none, none]
    ∧ ((World.run intElem [Op.ctor_init_list [1, 2, 3, 4]]).assign_copy intElem 0 0).var 0
      = ⟨6, 4, 4⟩ := by
  decide

/-- C7: in a reachable state let `b` be copy-constructed from the container `a`; writing a value
through an iterator `it` of `b` with `b.begin() <= it < b.end()` takes effect in `b` and leaves
`a` and every element of `a` as they were before the copy: the buffer of `b` is not the
buffer of `a`, and no element of `b` is stored where an element of `a` is. -/
theorem C7_copy_is_independent (E : Elem T) (w : World T) (hw : Reachable E w) (a : Nat)
    (ha : a < w.vars.length) (it : vector_iterator) (x : T)
    (hlo : vector_iterator.lt it ((w.construct_copy E a).var w.vars.length).begin = false)
    (hhi : vector_iterator.lt it ((w.construct_copy E a).var w.vars.length).end_ = true) :
    (w.construct_copy E a).var a = w.var a
    ∧ ((w.construct_copy E a).heap.store it.deref (some x)).load it.deref = some x
    ∧ ((w.construct_copy E a).var a).elems ((w.construct_copy E a).heap.store it.deref (some x))
        = (w.var a).elems w.heap
    ∧ ((w.construct_copy E a).var w.vars.length).m_data ≠ (w.var a).m_data
    ∧ (∀ i j : Nat, i < (w.var a).m_size →
        j < ((w.construct_copy E a).var w.vars.length).m_size →
        (w.var a).m_data + (i : Int)
          ≠ ((w.construct_copy E a).var w.vars.length).m_data + (j : Int)) := by
  have hwf := hw.wf
  have hown := hwf.owned a ha
  have hle := hown.data_le
  have hb : (w.construct_copy E a).var w.vars.length
      = ⟨(w.heap.cells.length : Int) + 1, (w.var a).m_size, (w.var a).m_capacity⟩ :=
    World.var_append_right _ _ _
  have ha' : (w.construct_copy E a).var a = w.var a :=
    World.var_append_left _ w.heap _ _ ha
  rw [hb] at hlo hhi
  simp only [vector_iterator.lt, vector.begin, vector.end_, decide_eq_false_iff_not,
    decide_eq_true_eq, not_lt] at hlo hhi
  have hblock : (w.construct_copy E a).heap.Block ((w.heap.cells.length : Int) + 1)
      (w.var a).m_size := vector.ctor_copy_block E w.heap (w.var a)
  have hnn : 0 ≤ (w.var a).m_data := by
    rcases hown.2 with hnull | hblk
    · rw [hnull.1]
    · have := hblk.pos
      omega
  refine ⟨ha', ?_, ?_, ?_, ?_⟩
  · have hk := hblock.2 (it.m_ptr - ((w.heap.cells.length : Int) + 1)).toNat (by omega)
    have e : (w.heap.cells.length : Int) + 1
        + ((it.m_ptr - ((w.heap.cells.length : Int) + 1)).toNat : Int) = it.m_ptr := by omega
    rw [e] at hk
    obtain ⟨u, hu⟩ := (Heap.kindAt_live_iff _ _).mp hk
    exact Heap.load_of_cellAt (Heap.cellAt_store_live _ _ hu)
  · rw [ha']
    apply vector.elems_congr rfl
    intro k hk
    rw [Heap.cellAt_store_ne _ _ (by simp only [vector_iterator.deref]; omega)]
    exact vector.ctor_copy_old E w.heap (w.var a) (by omega)
  · rw [hb]
    simp only
    omega
  · intro i j hi hj
    rw [hb]
    simp only
    omega

/-- C7 at a concrete input: `a` is `{1,2,3}`, `b` its copy, and `9` is written at the second
position of `b`. -/
theorem C7_copy_is_independent_witness :
    ((World.run intElem [Op.ctor_init_list [1, 2, 3]]).construct_copy intElem 0).var 0
        = (World.run intElem [Op.ctor_init_list [1, 2, 3]]).var 0
    ∧ (((World.run intElem [Op.ctor_init_list [1, 2, 3]]).construct_copy intElem 0).heap.store
        (vector_iterator.deref ⟨6⟩) (some 9)).load (vector_iterator.deref ⟨6⟩) = some 9
    ∧ (((World.run intElem [Op.ctor_init_list [1, 2, 3]]).construct_copy intElem 0).var 0).elems
        (((World.run intElem [Op.ctor_init_list [1, 2, 3]]).construct_copy intElem 0).heap.store
          (vector_iterator.deref ⟨6⟩) (some 9))
        = ((World.run intElem [Op.ctor_init_list [1, 2, 3]]).var 0).elems
            (World.run intElem [Op.ctor_init_list [1, 2, 3]]).heap
    ∧ (((World.run intElem [Op.ctor_init_list [1, 2, 3]]).construct_copy intElem 0).var
          (World.run intElem [Op.ctor_init_list [1, 2, 3]]).vars.length).m_data
        ≠ ((World.run intElem [Op.ctor_init_list [1, 2, 3]]).var 0).m_data :=
  ⟨(C7_copy_is_independent intElem (World.run intElem [Op.ctor_init_list [1, 2, 3]])
      ⟨[Op.ctor_init_list [1, 2, 3]], rfl⟩ 0 (by decide) ⟨6⟩ 9 (by decide) (by decide)).1,
    (C7_copy_is_independent intElem (World.run intElem [Op.ctor_init_list [1, 2, 3]])
      ⟨[Op.ctor_init_list [1, 2, 3]], rfl⟩ 0 (by decide) ⟨6⟩ 9 (by decide) (by decide)).2.1,
    (C7_copy_is_independent intElem (World.run intElem [Op.ctor_init_list [1, 2, 3]])
      ⟨[Op.ctor_init_list [1, 2, 3]], rfl⟩ 0 (by decide) ⟨6⟩ 9 (by decide) (by decide)).2.2.1,
    (C7_copy_is_independent intElem (World.run intElem [Op.ctor_init_list [1, 2, 3]])
      ⟨[Op.ctor_init_list [1, 2, 3]], rfl⟩ 0 (by decide) ⟨6⟩ 9 (by decide) (by decide)).2.2.2.1⟩

/-- C8: in a reachable state the copy constructor applied to a container `src` returns a container
whose buffer is a live array of exactly `src.capacity` elements that is newly allocated (before
the call its address was not the start of any live array and none of its elements was live
storage), whose size and capacity are those of `src`, and whose elements at the indices below its
size are those of `src` in the same order. -/
theorem C8_copy_constructor (E : Elem T) (w : World T) (hw : Reachable E w) (j : Nat)
    (hj : j < w.vars.length) :
    (vector.ctor_copy E w.heap (w.var j)).1.Block
        (vector.ctor_copy E w.heap (w.var j)).2.m_data (w.var j).m_capacity
    ∧ (∀ n : Nat, ¬ w.heap.Block (vector.ctor_copy E w.heap (w.var j)).2.m_data n)
    ∧ (∀ k : Nat, k < (vector.ctor_copy E w.heap (w.var j)).2.m_capacity →
        w.heap.kindAt ((vector.ctor_copy E w.heap (w.var j)).2.m_data + (k : Int))
          ≠ some (Cell.live none))
    ∧ (vector.ctor_copy E w.heap (w.var j)).2.m_size = (w.var j).m_size
    ∧ (vector.ctor_copy E w.heap (w.var j)).2.m_capacity = (w.var j).m_capacity
    ∧ (vector.ctor_copy E w.heap (w.var j)).2.elems (vector.ctor_copy E w.heap (w.var j)).1
        = (w.var j).elems w.heap := by
  have hown := hw.wf.owned j hj
  refine ⟨?_, ?_, ?_, rfl, rfl, vector.ctor_copy_elems E w.heap hown⟩
  · rw [hown.1]
    exact vector.ctor_copy_block E w.heap (w.var j)
  · intro n hb
    rw [vector.ctor_copy_fields] at hb
    have := (Heap.kindAt_some_bounds hb.1).2
    simp only at this
    omega
  · intro k _ hlive
    rw [vector.ctor_copy_fields] at hlive
    have := (Heap.kindAt_some_bounds hlive).2
    simp only at this
    omega

/-- C8 at a concrete input: the copy of `{1,2,3}`. -/
theorem C8_copy_constructor_witness :
    (vector.ctor_copy intElem (World.run intElem [Op.ctor_init_list [1, 2, 3]]).heap
        ((World.run intElem [Op.ctor_init_list [1, 2, 3]]).var 0)).2.m_size = 3
    ∧ (vector.ctor_copy intElem (World.run intElem [Op.ctor_init_list [1, 2, 3]]).heap
        ((World.run intElem [Op.ctor_init_list [1, 2, 3]]).var 0)).2.elems
        (vector.ctor_copy intElem (World.run intElem [Op.ctor_init_list [1, 2, 3]]).heap
          ((World.run intElem [Op.ctor_init_list [1, 2, 3]]).var 0)).1
      = ((World.run intElem [Op.ctor_init_list [1, 2, 3]]).var 0).elems
          (World.run intElem [Op.ctor_init_list [1, 2, 3]]).heap :=
  ⟨by decide,
    (C8_copy_constructor intElem (World.run intElem [Op.ctor_init_list [1, 2, 3]])
      ⟨[Op.ctor_init_list [1, 2, 3]], rfl⟩ 0 (by decide)).2.2.2.2.2⟩

/-- C9: move-constructing a new container from the container `v` leaves the store untouched (no
element is copied), gives the new container the buffer, size and capacity `v` had, so that its
traversal is the traversal `v` had, and leaves `v` with a null buffer, size 0 and capacity 0. -/
theorem C9_move_constructor (w : World T) (v : Nat) (hv : v < w.vars.length) (fuel : Nat) :
    (w.construct_move v).heap = w.heap
    ∧ (w.construct_move v).var w.vars.length = w.var v
    ∧ ((w.construct_move v).var w.vars.length).traversal (w.construct_move v).heap fuel
        = (w.var v).traversal w.heap fuel
    ∧ (w.construct_move v).var v = ⟨0, 0, 0⟩ := by
  refine ⟨rfl, World.construct_move_var_new w v, ?_, ?_⟩
  · rw [World.construct_move_var_new, World.construct_move_heap]
  · rw [World.construct_move_var_old w hv]
    simp

/-- C9 at a concrete input: `w` move-constructed from the five-element container
`{1,2,3,4,5}`. -/
theorem C9_move_constructor_witness :
    (((World.run intElem [Op.ctor_init_list [1, 2, 3, 4, 5]]).construct_move 0).var 1).traversal
        ((World.run intElem [Op.ctor_init_list [1, 2, 3, 4, 5]]).construct_move 0).heap 6
      = some [some 1, some 2, some 3, some 4, some 5]
    ∧ ((World.run intElem [Op.ctor_init_list [1, 2, 3, 4, 5]]).construct_move 0).var 0
      = ⟨0, 0, 0⟩ :=
  ⟨by decide,
    (C9_move_constructor (World.run intElem [Op.ctor_init_list [1, 2, 3, 4, 5]]) 0
      (by decide) 6).2.2.2⟩

/-- C10: in a reachable state, for two different containers `dst` and `src`, after
`dst = std::move(src)` the container `dst` holds the buffer, size and capacity `src` had and its
traversal is the traversal `src` had, and `src` has a null buffer, size 0 and capacity 0; when
a container `k` is then move-assigned into the emptied `src`, `src` in turn holds what `k` had,
is traversed as `k` was, and `k` is empty. -/
theorem C10_move_assign (E : Elem T) (w : World T) (hw : Reachable E w) (dst src k : Nat)
    (hdst : dst < w.vars.length) (hsrc : src < w.vars.length) (hk : k < w.vars.length)
    (hne : dst ≠ src) (hks : k ≠ src) (fuel : Nat) :
    (w.assign_move dst src).var dst = w.var src
    ∧ ((w.assign_move dst src).var dst).traversal (w.assign_move dst src).heap fuel
        = (w.var src).traversal w.heap fuel
    ∧ (w.assign_move dst src).var src = ⟨0, 0, 0⟩
    ∧ ((w.assign_move dst src).assign_move src k).var src = (w.assign_move dst src).var k
    ∧ (((w.assign_move dst src).assign_move src k).var src).traversal
          ((w.assign_move dst src).assign_move src k).heap fuel
        = ((w.assign_move dst src).var k).traversal (w.assign_move dst src).heap fuel
    ∧ ((w.assign_move dst src).assign_move src k).var k = ⟨0, 0, 0⟩ := by
  have hwf := hw.wf
  have h1 := World.assign_move_spec hwf hdst hsrc hne fuel
  have hwf1 : (w.assign_move dst src).WF := hwf.assign_move hdst hsrc
  have hlen := World.assign_move_length w dst src
  have h2 := World.assign_move_spec hwf1 (by rw [hlen]; exact hsrc) (by rw [hlen]; exact hk)
    (fun e => hks e.symm) fuel
  exact ⟨h1.1, h1.2.1, h1.2.2, h2.1, h2.2.1, h2.2.2⟩

/-- C10 at a concrete input: `dst = {1,2,3}`, `src = {4,5}`, a third container `{6}`; after
`dst = std::move(src)` the container `dst` is traversed as `4,5`, and after the third is moved into
`src`, `src` is traversed as `6`. -/
theorem C10_move_assign_witness :
    ((World.assign_move (World.run intElem [Op.ctor_init_list [1, 2, 3], Op.ctor_init_list [4, 5],
        Op.ctor_init_list [6]]) 0 1).var 0).traversal
        (World.assign_move (World.run intElem [Op.ctor_init_list [1, 2, 3],
          Op.ctor_init_list [4, 5], Op.ctor_init_list [6]]) 0 1).heap 4
      = some [some 4, some 5]
    ∧ (World.assign_move (World.run intElem [Op.ctor_init_list [1, 2, 3], Op.ctor_init_list [4, 5],
        Op.ctor_init_list [6]]) 0 1).var 1 = ⟨0, 0, 0⟩
    ∧ ((World.assign_move (World.assign_move (World.run intElem [Op.ctor_init_list [1, 2, 3],
        Op.ctor_init_list [4, 5], Op.ctor_init_list [6]]) 0 1) 1 2).var 1).traversal
        (World.assign_move (World.assign_move (World.run intElem [Op.ctor_init_list [1, 2, 3],
          Op.ctor_init_list [4, 5], Op.ctor_init_list [6]]) 0 1) 1 2).heap 4
      = some [some 6]
    ∧ (World.assign_move (World.assign_move (World.run intElem [Op.ctor_init_list [1, 2, 3],
        Op.ctor_init_list [4, 5], Op.ctor_init_list [6]]) 0 1) 1 2).var 2 = ⟨0, 0, 0⟩ :=
  ⟨by decide,
    (C10_move_assign intElem (World.run intElem [Op.ctor_init_list [1, 2, 3],
      Op.ctor_init_list [4, 5], Op.ctor_init_list [6]]) ⟨_, rfl⟩ 0 1 2
      (by decide) (by decide) (by decide) (by decide) (by decide) 4).2.2.1,
    by decide,
    (C10_move_assign intElem (World.run intElem [Op.ctor_init_list [1, 2, 3],
      Op.ctor_init_list [4, 5], Op.ctor_init_list [6]]) ⟨_, rfl⟩ 0 1 2
      (by decide) (by decide) (by decide) (by decide) (by decide) 4).2.2.2.2.2⟩

/-- C11: in a reachable state, for two different containers `dst` and `src` (whatever `dst` held,
also nothing), after `dst = src` the container `dst` has the size of `src` and is
traversed as `src` was, `src` and its traversal are unchanged, and the buffer of `dst` is a live
array that is not the buffer of `src`: no element of `dst` is stored where an element of `src`
is. -/
theorem C11_copy_assign (E : Elem T) (w : World T) (hw : Reachable E w) (dst src : Nat)
    (hdst : dst < w.vars.length) (hsrc : src < w.vars.length) (hne : dst ≠ src) (fuel : Nat) :
    ((w.assign_copy E dst src).var dst).m_size = (w.var src).m_size
    ∧ ((w.assign_copy E dst src).var dst).traversal (w.assign_copy E dst src).heap fuel
        = (w.var src).traversal w.heap fuel
    ∧ (w.assign_copy E dst src).var src = w.var src
    ∧ ((w.assign_copy E dst src).var src).traversal (w.assign_copy E dst src).heap fuel
        = (w.var src).traversal w.heap fuel
    ∧ (w.assign_copy E dst src).heap.Block ((w.assign_copy E dst src).var dst).m_data
        (w.var src).m_size
    ∧ ((w.assign_copy E dst src).var dst).m_data ≠ (w.var src).m_data
    ∧ (∀ i j : Nat, i < (w.var src).m_size → j < ((w.assign_copy E dst src).var dst).m_size →
        (w.var src).m_data + (i : Int)
          ≠ ((w.assign_copy E dst src).var dst).m_data + (j : Int)) := by
  have hwf := hw.wf
  have hs := World.assign_copy_spec E hwf hdst hsrc hne fuel
  have hle := (hwf.owned src hsrc).data_le
  have hnn : 0 ≤ (w.var src).m_data := by
    rcases (hwf.owned src hsrc).2 with hnull | hblk
    · rw [hnull.1]
    · have := hblk.pos
      omega
  refine ⟨?_, hs.2.1, hs.2.2.1, hs.2.2.2, ?_, ?_, ?_⟩
  · rw [hs.1]
  · rw [hs.1]
    exact World.assign_copy_block E w hdst src
  · rw [hs.1]
    simp only
    omega
  · intro i j hi hj
    rw [hs.1]
    simp only
    omega

/-- C11 at a concrete input: a default-constructed container is copy-assigned from `{1,2,3}`. -/
theorem C11_copy_assign_witness :
    ((World.assign_copy intElem
        (World.run intElem [Op.ctor_init_list [1, 2, 3], Op.ctor_default]) 1 0).var 1).traversal
        (World.assign_copy intElem
          (World.run intElem [Op.ctor_init_list [1, 2, 3], Op.ctor_default]) 1 0).heap 4
      = some [some 1, some 2, some 3]
    ∧ ((World.assign_copy intElem
        (World.run intElem [Op.ctor_init_list [1, 2, 3], Op.ctor_default]) 1 0).var 1).m_size
      = ((World.run intElem [Op.ctor_init_list [1, 2, 3], Op.ctor_default]).var 0).m_size :=
  ⟨by decide,
    (C11_copy_assign intElem (World.run intElem [Op.ctor_init_list [1, 2, 3], Op.ctor_default])
      ⟨_, rfl⟩ 1 0 (by decide) (by decide) (by decide) 4).1⟩

/-- C12: the container constructed with `(n, v)` has size `n` and capacity `n` and its begin-to-end
traversal ends after exactly `n` elements, each equal to `v`; the container constructed with
`(n)` alone has size `n`, capacity `n` and `n` elements equal to the value-initialised `T{}`. -/
theorem C12_sized_constructors (E : Elem T) (h : Heap T) (n : Nat) (v : T) (fuel : Nat) :
    (vector.ctor_fill E h n v).2.m_size = n
    ∧ (vector.ctor_fill E h n v).2.m_capacity = n
    ∧ (vector.ctor_fill E h n v).2.traversal (vector.ctor_fill E h n v).1 fuel
        = (if n < fuel then some (List.replicate n (some v)) else none)
    ∧ (vector.ctor_size E h n).2.m_size = n
    ∧ (vector.ctor_size E h n).2.m_capacity = n
    ∧ (vector.ctor_size E h n).2.traversal (vector.ctor_size E h n).1 fuel
        = (if n < fuel then some (List.replicate n (some E.value_init)) else none) := by
  refine ⟨rfl, rfl, ?_, rfl, rfl, ?_⟩
  · rw [vector.traversal_eq, vector.ctor_fill_elems]
    rfl
  · rw [vector.traversal_eq, vector.ctor_size_elems]
    rfl

/-- C13 (the code at the failing input): after `it -= 3` on the iterator at address `10` the
iterator is still at address `10`, and `it - 3` is an iterator at address `10`, not `7`. -/
theorem C13_sub_does_not_retreat :
    (vector_iterator.sub_assign ⟨10⟩ 3).1.m_ptr = 10
      ∧ (vector_iterator.sub_assign ⟨10⟩ 3).2.m_ptr = 10
      ∧ (vector_iterator.sub ⟨10⟩ 3).m_ptr = 10 := by
  decide

/-- For every iterator and offset, `it -= n` leaves `it` as it was and `it - n` is a copy of it. -/
theorem vector_iterator.sub_eq_self (it : vector_iterator) (n : Int) :
    (vector_iterator.sub_assign it n).1 = it ∧ vector_iterator.sub it n = it :=
  ⟨rfl, rfl⟩

/-- C14: for an iterator at address `p`, `++it` leaves it at `p + 1` and returns it at `p + 1`;
`it++` leaves it at `p + 1` and returns an iterator at `p`; `--it` leaves and returns `p - 1`;
`it--` leaves it at `p - 1` and returns an iterator at `p`. -/
theorem C14_increment_decrement (it : vector_iterator) :
    (vector_iterator.pre_inc it).1.m_ptr = it.m_ptr + 1
    ∧ (vector_iterator.pre_inc it).2.m_ptr = it.m_ptr + 1
    ∧ (vector_iterator.post_inc it).1.m_ptr = it.m_ptr + 1
    ∧ (vector_iterator.post_inc it).2.m_ptr = it.m_ptr
    ∧ (vector_iterator.pre_dec it).1.m_ptr = it.m_ptr - 1
    ∧ (vector_iterator.pre_dec it).2.m_ptr = it.m_ptr - 1
    ∧ (vector_iterator.post_dec it).1.m_ptr = it.m_ptr - 1
    ∧ (vector_iterator.post_dec it).2.m_ptr = it.m_ptr :=
  ⟨rfl, rfl, rfl, rfl, rfl, rfl, rfl, rfl⟩

/-- C15: `a == b` holds exactly when `a` and `b` hold the same address, so `==` is reflexive,
symmetric and transitive; `a < b` holds exactly when the address of `a` is lower than that of
`b`, `a > b` is `b < a`, `<` is transitive, and exactly one of `a < b`, `a == b`, `a > b`
holds. -/
theorem C15_equality_and_order (a b c : vector_iterator) :
    (vector_iterator.eq a b = true ↔ a.m_ptr = b.m_ptr)
    ∧ vector_iterator.eq a a = true
    ∧ (vector_iterator.eq a b = true → vector_iterator.eq b a = true)
    ∧ (vector_iterator.eq a b = true → vector_iterator.eq b c = true
        → vector_iterator.eq a c = true)
    ∧ (vector_iterator.lt a b = true ↔ a.m_ptr < b.m_ptr)
    ∧ vector_iterator.gt a b = vector_iterator.lt b a
    ∧ (vector_iterator.lt a b = true → vector_iterator.lt b c = true
        → vector_iterator.lt a c = true)
    ∧ ((vector_iterator.lt a b = true ∧ vector_iterator.eq a b = false
          ∧ vector_iterator.gt a b = false)
        ∨ (vector_iterator.lt a b = false ∧ vector_iterator.eq a b = true
          ∧ vector_iterator.gt a b = false)
        ∨ (vector_iterator.lt a b = false ∧ vector_iterator.eq a b = false
          ∧ vector_iterator.gt a b = true)) := by
  refine ⟨?_, ?_, ?_, ?_, ?_, ?_, ?_, ?_⟩
  · simp [vector_iterator.eq]
  · simp [vector_iterator.eq]
  · simp only [vector_iterator.eq, decide_eq_true_eq]
    exact fun h => h.symm
  · simp only [vector_iterator.eq, decide_eq_true_eq]
    exact fun h1 h2 => h1.trans h2
  · simp [vector_iterator.lt]
  · simp [vector_iterator.gt, vector_iterator.lt]
  · simp only [vector_iterator.lt, decide_eq_true_eq]
    exact fun h1 h2 => lt_trans h1 h2
  · simp only [vector_iterator.eq, vector_iterator.lt, vector_iterator.gt, decide_eq_true_eq,
      decide_eq_false_iff_not, gt_iff_lt]
    omega

/-- C16: for every container `c` of a reachable state, `begin() == end()` holds exactly when the
size of `c` is 0 (in particular when the buffer is null); when the size is positive, `begin()`
is the address of the first element of the live array of `size` elements that `c` owns, and
`end()` is the address `size` elements past `begin()`. -/
theorem C16_begin_end (E : Elem T) (w : World T) (hw : Reachable E w) (c : Nat)
    (hc : c < w.vars.length) :
    (vector_iterator.eq (w.var c).begin (w.var c).end_ = true ↔ (w.var c).m_size = 0)
    ∧ ((w.var c).m_data = 0 → vector_iterator.eq (w.var c).begin (w.var c).end_ = true)
    ∧ (0 < (w.var c).m_size →
        w.heap.Block (vector_iterator.deref (w.var c).begin) (w.var c).m_size
        ∧ vector_iterator.deref (w.var c).begin = vector_iterator.index (w.var c).begin 0
        ∧ (w.var c).end_.m_ptr = (w.var c).begin.m_ptr + ((w.var c).m_size : Int)) := by
  have hown := hw.wf.owned c hc
  have hiff : vector_iterator.eq (w.var c).begin (w.var c).end_ = true ↔ (w.var c).m_size = 0 := by
    simp only [vector_iterator.eq, vector.begin, vector.end_, decide_eq_true_eq]
    omega
  refine ⟨hiff, ?_, ?_⟩
  · intro h0
    rcases hown.2 with hnull | hb
    · exact hiff.mpr hnull.2
    · have := hb.pos
      omega
  · intro hpos
    rcases hown.2 with hnull | hb
    · omega
    · refine ⟨hb, ?_, rfl⟩
      simp [vector_iterator.deref, vector_iterator.index]

/-- C16 at a concrete input: the container `{1,2,3}`. -/
theorem C16_begin_end_witness :
    vector_iterator.eq ((World.run intElem [Op.ctor_init_list [1, 2, 3]]).var 0).begin
        ((World.run intElem [Op.ctor_init_list [1, 2, 3]]).var 0).end_ = false
    ∧ (vector_iterator.eq ((World.run intElem [Op.ctor_init_list [1, 2, 3]]).var 0).begin
        ((World.run intElem [Op.ctor_init_list [1, 2, 3]]).var 0).end_ = true
      ↔ ((World.run intElem [Op.ctor_init_list [1, 2, 3]]).var 0).m_size = 0) :=
  ⟨by decide,
    (C16_begin_end intElem (World.run intElem [Op.ctor_init_list [1, 2, 3]]) ⟨_, rfl⟩ 0
      (by decide)).1⟩

/-- C17 (counterexample): the container built with size `0`, the one built from an empty
initializer list and the copy of a default-constructed container are reachable, have capacity `0`
and hold the non-null address that `new T[0]` returned. -/
theorem C17_zero_capacity_nonnull :
    (Reachable intElem (World.run intElem [Op.ctor_size 0])
      ∧ ((World.run intElem [Op.ctor_size 0]).var 0).m_capacity = 0
      ∧ ((World.run intElem [Op.ctor_size 0]).var 0).m_data ≠ 0)
    ∧ (Reachable intElem (World.run intElem [Op.ctor_init_list []])
      ∧ ((World.run intElem [Op.ctor_init_list []]).var 0).m_capacity = 0
      ∧ ((World.run intElem [Op.ctor_init_list []]).var 0).m_data ≠ 0)
    ∧ (Reachable intElem (World.run intElem [Op.ctor_default, Op.ctor_copy 0])
      ∧ ((World.run intElem [Op.ctor_default, Op.ctor_copy 0]).var 1).m_capacity = 0
      ∧ ((World.run intElem [Op.ctor_default, Op.ctor_copy 0]).var 1).m_data ≠ 0) :=
  ⟨⟨⟨_, rfl⟩, by decide, by decide⟩, ⟨⟨_, rfl⟩, by decide, by decide⟩,
    ⟨⟨_, rfl⟩, by decide, by decide⟩⟩

/-- C17 (amended): for every container of a reachable state, if the capacity is 0 then the size is
0 and the data pointer is null or the address of a live array of zero elements obtained from
`new T[0]`; and a null data pointer goes with capacity 0. -/
theorem C17_zero_capacity (E : Elem T) (w : World T) (hw : Reachable E w) (c : Nat)
    (hc : c < w.vars.length) :
    ((w.var c).m_capacity = 0 →
      (w.var c).m_size = 0 ∧ ((w.var c).m_data = 0 ∨ w.heap.Block (w.var c).m_data 0))
    ∧ ((w.var c).m_data = 0 → (w.var c).m_capacity = 0) := by
  have hown := hw.wf.owned c hc
  constructor
  · intro hcap
    have hs : (w.var c).m_size = 0 := by rw [← hown.1]; exact hcap
    refine ⟨hs, ?_⟩
    rcases hown.2 with hnull | hb
    · exact Or.inl hnull.1
    · rw [hs] at hb; exact Or.inr hb
  · intro h0
    rcases hown.2 with hnull | hb
    · rw [hown.1]; exact hnull.2
    · have := hb.pos
      omega

/-- C17 (amended) at a concrete input: the container built with size `0`. -/
theorem C17_zero_capacity_witness :
    ((World.run intElem [Op.ctor_size 0]).var 0).m_capacity = 0
    ∧ ((World.run intElem [Op.ctor_size 0]).var 0).m_size = 0
    ∧ (((World.run intElem [Op.ctor_size 0]).var 0).m_data = 0
      ∨ (World.run intElem [Op.ctor_size 0]).heap.Block
          ((World.run intElem [Op.ctor_size 0]).var 0).m_data 0) :=
  ⟨by decide,
    (C17_zero_capacity intElem (World.run intElem [Op.ctor_size 0]) ⟨_, rfl⟩ 0
      (by decide)).1 (by decide)⟩

/-- C18: if `0 <= size <= capacity` holds for every container of a state, then after any one
constructor or assignment it holds for every container of the new state: for the container a
constructor produces, for the source of a copy or move construction, and for the destination,
the source and every other container of a copy-, move- or initializer-list-assignment. -/
theorem C18_size_le_capacity (E : Elem T) (w : World T) (op : Op T)
    (hinv : ∀ i, i < w.vars.length → (w.var i).m_size ≤ (w.var i).m_capacity)
    (i : Nat) (hi : i < (w.step E op).vars.length) :
    0 ≤ ((w.step E op).var i).m_size
    ∧ ((w.step E op).var i).m_size ≤ ((w.step E op).var i).m_capacity :=
  ⟨Nat.zero_le _, World.size_le_capacity_step E w op hinv i hi⟩

/-- C18 at a concrete input: a default-constructed container is copy-assigned from `{1,2,3}`. -/
theorem C18_size_le_capacity_witness :
    ((World.step intElem (World.run intElem [Op.ctor_init_list [1, 2, 3], Op.ctor_default])
        (Op.assign_copy 1 0)).var 1).m_size = 3
    ∧ 0 ≤ ((World.step intElem (World.run intElem [Op.ctor_init_list [1, 2, 3], Op.ctor_default])
        (Op.assign_copy 1 0)).var 1).m_size
    ∧ ((World.step intElem (World.run intElem [Op.ctor_init_list [1, 2, 3], Op.ctor_default])
        (Op.assign_copy 1 0)).var 1).m_size
      ≤ ((World.step intElem (World.run intElem [Op.ctor_init_list [1, 2, 3], Op.ctor_default])
        (Op.assign_copy 1 0)).var 1).m_capacity :=
  ⟨by decide,
    C18_size_le_capacity intElem (World.run intElem [Op.ctor_init_list [1, 2, 3], Op.ctor_default])
      (Op.assign_copy 1 0) (by decide) 1 (by decide)⟩

/-- C19: for every container `src` of a reachable state the capacity equals the size; hence the
array the copy constructor allocates has exactly as many elements as the capacity it records,
and so has the array the copy assignment `dst = src` allocates (also when `dst` is `src`). -/
theorem C19_capacity_eq_size (E : Elem T) (w : World T) (hw : Reachable E w) (src dst : Nat)
    (hsrc : src < w.vars.length) (hdst : dst < w.vars.length) :
    (w.var src).m_capacity = (w.var src).m_size
    ∧ (vector.ctor_copy E w.heap (w.var src)).1.Block
        (vector.ctor_copy E w.heap (w.var src)).2.m_data
        (vector.ctor_copy E w.heap (w.var src)).2.m_capacity
    ∧ (w.assign_copy E dst src).heap.Block ((w.assign_copy E dst src).var dst).m_data
        ((w.assign_copy E dst src).var dst).m_capacity := by
  have hown := hw.wf.owned src hsrc
  refine ⟨hown.1, ?_, ?_⟩
  · rw [vector.ctor_copy_fields]
    simp only
    rw [hown.1]
    exact vector.ctor_copy_block E w.heap (w.var src)
  · rw [World.assign_copy_var E w hdst src dst]
    simp only [if_true]
    rw [hown.1]
    exact World.assign_copy_block E w hdst src

/-- C19 at a concrete input: the container `{1,2,3}` and a default-constructed one. -/
theorem C19_capacity_eq_size_witness :
    ((World.run intElem [Op.ctor_init_list [1, 2, 3], Op.ctor_default]).var 0).m_capacity = 3
    ∧ ((World.run intElem [Op.ctor_init_list [1, 2, 3], Op.ctor_default]).var 0).m_capacity
      = ((World.run intElem [Op.ctor_init_list [1, 2, 3], Op.ctor_default]).var 0).m_size :=
  ⟨by decide,
    (C19_capacity_eq_size intElem
      (World.run intElem [Op.ctor_init_list [1, 2, 3], Op.ctor_default]) ⟨_, rfl⟩ 0 1
      (by decide) (by decide)).1⟩

/-- C20: in a reachable state, after `v = std::move(v)` the container `v` has a null buffer, size
0 and capacity 0, `begin() == end()`, its traversal visits nothing, and the elements it held
are gone: their storage has been released. -/
theorem C20_self_move_assign (E : Elem T) (w : World T) (hw : Reachable E w) (v : Nat)
    (hv : v < w.vars.length) (fuel : Nat) :
    (w.assign_move v v).var v = ⟨0, 0, 0⟩
    ∧ vector_iterator.eq ((w.assign_move v v).var v).begin ((w.assign_move v v).var v).end_ = true
    ∧ ((w.assign_move v v).var v).traversal (w.assign_move v v).heap (fuel + 1) = some []
    ∧ ∀ k : Nat, k < (w.var v).m_size →
        (w.assign_move v v).heap.load ((w.var v).m_data + (k : Int)) = none := by
  have hown := hw.wf.owned v hv
  have hvar : (w.assign_move v v).var v = ⟨0, 0, 0⟩ := by
    rw [World.assign_move_var w hv hv v]
    simp
  refine ⟨hvar, ?_, ?_, ?_⟩
  · rw [hvar]; rfl
  · rw [hvar, vector.traversal_eq]
    simp [vector.elems]
  · intro k hk
    rw [World.assign_move_heap]
    rcases hown.2 with hnull | hb
    · omega
    · exact Heap.load_delete_array_inside w.heap hb hk

/-- C20 at a concrete input: the container `{1,2,3,4}` move-assigned to itself. -/
theorem C20_self_move_assign_witness :
    ((World.run intElem [Op.ctor_init_list [1, 2, 3, 4]]).var 0).traversal
        (World.run intElem [Op.ctor_init_list [1, 2, 3, 4]]).heap 5
      = some [some 1, some 2, some 3, some 4]
    ∧ (World.assign_move (World.run intElem [Op.ctor_init_list [1, 2, 3, 4]]) 0 0).var 0
      = ⟨0, 0, 0⟩ :=
  ⟨by decide,
    (C20_self_move_assign intElem (World.run intElem [Op.ctor_init_list [1, 2, 3, 4]]) ⟨_, rfl⟩
      0 (by decide) 0).1⟩

end Claims

end tinystl
